import Mathlib

/-!
Formal model of the "Invisible Wall" relationship simulator core:
the emotional state engine (src/games/invisible-wall/state.py and
src/skills/invisible-wall-state/scripts/state_engine.py), the client-side
control-tag protocol and state-update path (src/games/invisible-wall/client.py),
and the timing model (state.py calculate_timing).

Conventions of the embedding:
* Python ints are modelled as ℤ; Python floats that arise here are dyadic
  rationals (deltas of ±0.5, thresholds 0.2/0.3/0.5/0.7), modelled exactly as ℚ.
* Python `int(x)` truncation toward zero is `pyInt`.
* `datetime.now().isoformat()` is nondeterministic input; every operation that
  reads the clock takes the timestamp as an explicit `now` argument.
* `random.randint` / `random.random` draws are made explicit: `calcTiming`
  consumes a pre-chosen list of draws and records in a Bool whether every
  consumed draw lay inside the interval the code requested at that call.
* Python strings are `List Char`.  `\d` and `\w` of the `re` module and
  `str.strip()` whitespace are modelled on ASCII (`\w` additionally accepts all
  code points ≥ 0x80, approximating the Unicode word class; no claim in this
  development depends on the difference).
-/

set_option maxHeartbeats 1000000

/-! ## Basic utilities -/

/-- `max lo (min hi x)` on ℤ, the shape used by `EmotionalState.clamp`. -/
def clampZ (lo hi x : ℤ) : ℤ := max lo (min hi x)

/-- `max lo (min hi x)` on ℚ (the state_engine variant can hold fractional
values, and Python max/min work on them unchanged). -/
def clampQ (lo hi x : ℚ) : ℚ := max lo (min hi x)

/-- Python `int(q)`: truncation toward zero.  For a reduced rational this is
`num.tdiv den`. -/
def pyInt (q : ℚ) : ℤ := q.num.tdiv q.den

/-- Python substring test `sub in big` (contiguous occurrence). -/
def occursIn (m : List Char) : List Char → Bool
  | [] => m.isEmpty
  | c :: cs => m.isPrefixOf (c :: cs) || occursIn m cs

/-- Python `l[-n:]`: the last `n` elements (all of `l` when it is shorter). -/
def lastN (n : ℕ) (l : List α) : List α := (l.reverse.take n).reverse

lemma clampZ_mem (lo hi x : ℤ) (h : lo ≤ hi) :
    lo ≤ clampZ lo hi x ∧ clampZ lo hi x ≤ hi := by
  unfold clampZ
  constructor
  · exact le_max_left _ _
  · exact max_le h (min_le_left _ _)

lemma clampQ_mem (lo hi x : ℚ) (h : lo ≤ hi) :
    lo ≤ clampQ lo hi x ∧ clampQ lo hi x ≤ hi := by
  unfold clampQ
  constructor
  · exact le_max_left _ _
  · exact max_le h (min_le_left _ _)

lemma clampZ_of_mem (lo hi x : ℤ) (h1 : lo ≤ x) (h2 : x ≤ hi) :
    clampZ lo hi x = x := by
  unfold clampZ
  rw [min_eq_right h2, max_eq_right h1]

lemma pyInt_intCast (k : ℤ) : pyInt (k : ℚ) = k := by
  unfold pyInt
  rw [Rat.num_intCast, Rat.den_intCast]
  exact Int.tdiv_one k

/-- If `p.isPrefixOf l` then `l` literally decomposes as `p ++ drop`. -/
lemma isPrefixOf_decomp {α : Type} [DecidableEq α] :
    ∀ (p l : List α), p.isPrefixOf l = true → l = p ++ l.drop p.length
  | [], _, _ => by simp
  | _ :: _, [], h => by simp [List.isPrefixOf] at h
  | a :: p, b :: l, h => by
      simp only [List.isPrefixOf, Bool.and_eq_true, beq_iff_eq] at h
      have := isPrefixOf_decomp p l h.2
      simp only [List.length_cons, List.drop_succ_cons, List.cons_append, h.1]
      exact congrArg _ this

lemma isPrefixOf_append_self {α : Type} [DecidableEq α] :
    ∀ (p xs : List α), p.isPrefixOf (p ++ xs) = true
  | [], _ => by simp [List.isPrefixOf]
  | a :: p, xs => by
      simp only [List.cons_append, List.isPrefixOf, beq_self_eq_true,
        Bool.true_and]
      exact isPrefixOf_append_self p xs

/-- A prefix of `t ++ xs` is a prefix of `t`, unless it extends past `t`
(in which case `t` is a prefix of it). -/
lemma isPrefixOf_append_cases {α : Type} [DecidableEq α] :
    ∀ (p t xs : List α), p.isPrefixOf (t ++ xs) = true →
      p.isPrefixOf t = true ∨ t.isPrefixOf p = true
  | [], t, xs, _ => Or.inl (by simp [List.isPrefixOf])
  | a :: p, [], xs, _ => Or.inr (by simp [List.isPrefixOf])
  | a :: p, b :: t, xs, h => by
      simp only [List.cons_append, List.isPrefixOf, Bool.and_eq_true,
        beq_iff_eq] at h
      rcases isPrefixOf_append_cases p t xs h.2 with h2 | h2
      · exact Or.inl (by simp [List.isPrefixOf, h.1, h2])
      · exact Or.inr (by simp [List.isPrefixOf, h.1, h2])

lemma occursIn_sub_mem {m cs : List Char} (h : occursIn m cs = true) :
    ∀ a ∈ m, a ∈ cs := by
  induction cs with
  | nil =>
      simp only [occursIn, List.isEmpty_iff] at h
      simp [h]
  | cons c cs ih =>
      simp only [occursIn, Bool.or_eq_true] at h
      rcases h with h | h
      · intro a ha
        rw [isPrefixOf_decomp m (c :: cs) h]
        exact List.mem_append_left _ ha
      · intro a ha
        exact List.mem_cons_of_mem _ (ih h a ha)

lemma lastN_length_le (n : ℕ) (l : List α) : (lastN n l).length ≤ n := by
  simp [lastN, List.length_take]

lemma lastN_of_length_le {n : ℕ} {l : List α} (h : l.length ≤ n) :
    lastN n l = l := by
  unfold lastN
  rw [List.take_of_length_le (by simpa using h), List.reverse_reverse]

lemma lastN_append_lastN (n : ℕ) (x y : List α) :
    lastN n (lastN n x ++ y) = lastN n (x ++ y) := by
  unfold lastN
  rw [List.reverse_append, List.reverse_reverse, List.reverse_append]
  congr 1
  rw [List.take_append_eq_append_take, List.take_append_eq_append_take,
    List.take_take, min_eq_left (Nat.sub_le n _)]

/-! ## Game-client emotional state (src/games/invisible-wall/state.py)

`EmotionalState` there stores six integer dimensions, a retraction memory of
dicts and an optional last-interaction timestamp. -/

/-- One entry of `retraction_memory` in state.py:
`{"content": content[:50], "timestamp": datetime.now().isoformat()}`. -/
structure MemEntry where
  content : List Char
  timestamp : String
  deriving DecidableEq, Repr

/-- `EmotionalState` of state.py (integer dimensions). -/
structure GameState where
  warmth : ℤ := 0
  tension : ℤ := 0
  trust : ℤ := 5
  disappointment : ℤ := 0
  need : ℤ := 3
  rhythm : ℤ := 5
  retraction_memory : List MemEntry := []
  last_interaction : Option String := none
  deriving DecidableEq, Repr

/-- The default-constructed `EmotionalState()` of state.py. -/
def defaultG : GameState := {}

/-- `EmotionalState.clamp` of state.py. -/
def gameClamp (s : GameState) : GameState :=
  { s with
    warmth := clampZ (-5) 5 s.warmth
    tension := clampZ 0 10 s.tension
    trust := clampZ 0 10 s.trust
    disappointment := clampZ 0 10 s.disappointment
    need := clampZ 0 10 s.need
    rhythm := clampZ 0 10 s.rhythm }

/-- The six documented ranges: warmth in [-5,5], the rest in [0,10]. -/
def inRangeG (s : GameState) : Prop :=
  -5 ≤ s.warmth ∧ s.warmth ≤ 5 ∧
  0 ≤ s.tension ∧ s.tension ≤ 10 ∧
  0 ≤ s.trust ∧ s.trust ≤ 10 ∧
  0 ≤ s.disappointment ∧ s.disappointment ≤ 10 ∧
  0 ≤ s.need ∧ s.need ≤ 10 ∧
  0 ≤ s.rhythm ∧ s.rhythm ≤ 10

instance (s : GameState) : Decidable (inRangeG s) := by
  unfold inRangeG; infer_instance

/-- `TRANSITIONS` of state.py (18 registered events). -/
def gameTransitions : List (String × List (String × ℚ)) :=
  [("consistent_daily", [("warmth", 1), ("trust", 1), ("rhythm", 1)]),
   ("remembered_detail", [("warmth", 2), ("trust", 1), ("need", 1)]),
   ("patient_waiting", [("warmth", 1), ("rhythm", 1)]),
   ("shared_personal", [("trust", 1), ("warmth", 1)]),
   ("natural_rhythm", [("trust", 1), ("rhythm", 1)]),
   ("showed_care", [("warmth", 1), ("need", 1)]),
   ("eager_push", [("warmth", -1), ("tension", 2), ("rhythm", -1)]),
   ("disappeared_24h", [("warmth", -1), ("disappointment", 1)]),
   ("obvious_dismissal", [("warmth", -2), ("trust", -1)]),
   ("inconsistent_story", [("trust", -2)]),
   ("forgot_detail", [("disappointment", 2), ("need", -1)]),
   ("missed_emotion", [("disappointment", 1)]),
   ("self_centered", [("disappointment", 1), ("warmth", -1)]),
   ("said_ambiguous", [("tension", 2)]),
   ("retraction_seen", [("tension", 2)]),
   ("asked_feelings", [("tension", 1)]),
   ("confession", [("tension", 5)]),
   ("normal_chat", [("tension", -0.5), ("rhythm", 0.5)])]

/-- Association-list read with default, mirroring Python `dict.get(k, d)`. -/
def getAssoc : List (String × ℚ) → String → ℚ → ℚ
  | [], _, d => d
  | (k', v') :: t, k, d => if k' = k then v' else getAssoc t k d

/-- Association-list write, mirroring Python `dict[k] = v` (replaces in place,
appends if absent; keys in the tables are unique). -/
def setAssoc : List (String × ℚ) → String → ℚ → List (String × ℚ)
  | [], k, v => [(k, v)]
  | (k', v') :: t, k, v =>
      if k' = k then (k, v) :: t else (k', v') :: setAssoc t k v

/-- `TRANSITIONS[event]` lookup (`event in TRANSITIONS` iff `some`). -/
def gameLookup (e : String) : Option (List (String × ℚ)) :=
  (gameTransitions.find? (fun p => p.1 = e)).map Prod.snd

/-- The fixed emotional keyword list of `apply_event`. -/
def emotionalKeywords : List (List Char) :=
  ["喜欢".toList, "想你".toList, "想见".toList, "在一起".toList,
   "讨厌".toList, "烦".toList, "对不起".toList]

/-- One iteration of the delta loop in state.py `apply_event`:
`setattr(state, attr, int(current + delta))` for the six numeric dimensions;
non-numeric attributes (the memory list, the timestamp) fail the
`isinstance(current, (int, float))` test and are skipped. -/
def gameApplyDelta (s : GameState) (p : String × ℚ) : GameState :=
  if p.1 = "warmth" then { s with warmth := pyInt ((s.warmth : ℚ) + p.2) }
  else if p.1 = "tension" then { s with tension := pyInt ((s.tension : ℚ) + p.2) }
  else if p.1 = "trust" then { s with trust := pyInt ((s.trust : ℚ) + p.2) }
  else if p.1 = "disappointment" then
    { s with disappointment := pyInt ((s.disappointment : ℚ) + p.2) }
  else if p.1 = "need" then { s with need := pyInt ((s.need : ℚ) + p.2) }
  else if p.1 = "rhythm" then { s with rhythm := pyInt ((s.rhythm : ℚ) + p.2) }
  else s

def gameApplyDeltas (s : GameState) (changes : List (String × ℚ)) : GameState :=
  changes.foldl gameApplyDelta s

/-- Result of state.py `apply_event`: either the unknown-event error dict or
the `{"changes": ...}` dict. -/
inductive GameOutput where
  | unknownEvent (msg : String)
  | applied (changes : List (String × ℚ))
  deriving DecidableEq, Repr

/-- state.py `apply_event(state, event, content)`.  Returns the mutated state
together with the returned dict; `now` stands for `datetime.now().isoformat()`. -/
def gameApplyEvent (s : GameState) (event : String) (content : List Char)
    (now : String) : GameState × GameOutput :=
  match gameLookup event with
  | none => (s, .unknownEvent ("Unknown event: " ++ event))
  | some tbl =>
      let isRetr : Bool := event = "retraction_seen" && !content.isEmpty
      let hasKw : Bool := emotionalKeywords.any (fun kw => occursIn kw content)
      let changes :=
        if isRetr && hasKw then
          setAssoc tbl "tension" (getAssoc tbl "tension" 0 + 2)
        else tbl
      let s1 :=
        if isRetr then
          { s with retraction_memory :=
              lastN 5 (s.retraction_memory ++ [⟨content.take 50, now⟩]) }
        else s
      let s2 := gameApplyDeltas s1 changes
      let s3 := { s2 with last_interaction := some now }
      (gameClamp s3, .applied changes)

/-- client.py: the state-update application in `send_message`
(lines 672-675): for each parsed `(key, val)`, `setattr(self.state, key, val)`
when the attribute exists, then one `clamp()`.  Overwrites of the two
non-dimension attributes (`retraction_memory`, `last_interaction`) replace
them with an integer in Python; they do not affect the six dimensions and are
not tracked here. -/
def setDim (s : GameState) (p : List Char × ℤ) : GameState :=
  if p.1 = "warmth".toList then { s with warmth := p.2 }
  else if p.1 = "tension".toList then { s with tension := p.2 }
  else if p.1 = "trust".toList then { s with trust := p.2 }
  else if p.1 = "disappointment".toList then { s with disappointment := p.2 }
  else if p.1 = "need".toList then { s with need := p.2 }
  else if p.1 = "rhythm".toList then { s with rhythm := p.2 }
  else s

def applyStateUpdates (s : GameState) (updates : List (List Char × ℤ)) :
    GameState :=
  gameClamp (updates.foldl setDim s)

/-- client.py `_detect_event_type`. -/
def detectEventType (userInput : List Char) : String :=
  let confessionKeywords : List (List Char) :=
    ["喜欢你".toList, "爱你".toList, "在一起".toList, "表白".toList,
     "做我女朋友".toList]
  let ambiguousKeywords : List (List Char) :=
    ["想你".toList, "想见你".toList, "晚安".toList, "早安".toList,
     "吃饭了吗".toList, "在干嘛".toList]
  if confessionKeywords.any (fun kw => occursIn kw userInput) then "confession"
  else if ambiguousKeywords.any (fun kw => occursIn kw userInput) then
    "ambiguous"
  else "normal"

/-! ## Standalone engine (src/skills/invisible-wall-state/scripts/state_engine.py)

Near-duplicate of the state.py engine, with three extra events, extra memory
fields, rational-valued dimensions (its delta loop performs `current + delta`
with no `int()` truncation) and a special-states computation. -/

/-- One entry of `retraction_memory` in state_engine.py (it additionally
records the tension at the time of the retraction). -/
structure EngineMemEntry where
  content : List Char
  timestamp : String
  tension_at_time : ℚ
  deriving DecidableEq, Repr

/-- `EmotionalState` of state_engine.py.  Dimensions are declared `int` but the
delta loop stores `current + delta` unchanged, so they are modelled as ℚ. -/
structure EngineState where
  warmth : ℚ := 0
  tension : ℚ := 0
  trust : ℚ := 5
  disappointment : ℚ := 0
  need : ℚ := 3
  rhythm : ℚ := 5
  consecutive_days : ℤ := 0
  last_interaction : String := ""
  retraction_memory : List EngineMemEntry := []
  disappointment_events : List String := []
  deriving DecidableEq, Repr

def defaultE : EngineState := {}

/-- `EmotionalState.clamp` of state_engine.py. -/
def engineClamp (s : EngineState) : EngineState :=
  { s with
    warmth := clampQ (-5) 5 s.warmth
    tension := clampQ 0 10 s.tension
    trust := clampQ 0 10 s.trust
    disappointment := clampQ 0 10 s.disappointment
    need := clampQ 0 10 s.need
    rhythm := clampQ 0 10 s.rhythm }

/-- `TRANSITIONS` of state_engine.py (21 registered events). -/
def engineTransitions : List (String × List (String × ℚ)) :=
  [("consistent_daily", [("warmth", 1), ("trust", 1), ("rhythm", 1)]),
   ("remembered_detail", [("warmth", 2), ("trust", 1), ("need", 1)]),
   ("patient_waiting", [("warmth", 1), ("rhythm", 1)]),
   ("shared_personal", [("trust", 1), ("warmth", 1)]),
   ("natural_rhythm", [("trust", 1), ("rhythm", 1)]),
   ("showed_care", [("warmth", 1), ("need", 1)]),
   ("eager_push", [("warmth", -1), ("tension", 2), ("rhythm", -1)]),
   ("disappeared_24h", [("warmth", -1), ("disappointment", 1)]),
   ("obvious_dismissal", [("warmth", -2), ("trust", -1)]),
   ("inconsistent_story", [("trust", -2)]),
   ("forgot_detail", [("disappointment", 2), ("need", -1)]),
   ("missed_emotion", [("disappointment", 1)]),
   ("self_centered", [("disappointment", 1), ("warmth", -1)]),
   ("instant_reply_always", [("trust", 0), ("rhythm", -1)]),
   ("said_ambiguous", [("tension", 2)]),
   ("retraction_seen", [("tension", 2)]),
   ("asked_feelings", [("tension", 1)]),
   ("confession", [("tension", 5)]),
   ("long_silence", [("tension", -1)]),
   ("normal_chat", [("tension", -0.5), ("rhythm", 0.5)]),
   ("time_passed_day", [("disappointment", -0.5)])]

def engineLookup (e : String) : Option (List (String × ℚ)) :=
  (engineTransitions.find? (fun p => p.1 = e)).map Prod.snd

/-- One iteration of the delta loop in state_engine.py `apply_event`:
`setattr(state, attr, current + delta)` — note: no truncation.  No registered
event carries a `consecutive_days` delta, and the remaining attributes are
non-numeric, so only the six dimensions can change. -/
def engineApplyDelta (s : EngineState) (p : String × ℚ) : EngineState :=
  if p.1 = "warmth" then { s with warmth := s.warmth + p.2 }
  else if p.1 = "tension" then { s with tension := s.tension + p.2 }
  else if p.1 = "trust" then { s with trust := s.trust + p.2 }
  else if p.1 = "disappointment" then
    { s with disappointment := s.disappointment + p.2 }
  else if p.1 = "need" then { s with need := s.need + p.2 }
  else if p.1 = "rhythm" then { s with rhythm := s.rhythm + p.2 }
  else s

def engineApplyDeltas (s : EngineState) (changes : List (String × ℚ)) :
    EngineState :=
  changes.foldl engineApplyDelta s

/-- Result dict of state_engine.py `apply_event`: the error dict, or
`{"old", "new", "changes", "special_states"}`. -/
inductive EngineOutput where
  | error (msg : String)
  | ok (old new : EngineState) (changes : List (String × ℚ))
      (special_states : List String)
  deriving DecidableEq, Repr

def outSpecial : EngineOutput → List String
  | .error _ => []
  | .ok _ _ _ sp => sp

def outChanges : EngineOutput → List (String × ℚ)
  | .error _ => []
  | .ok _ _ ch _ => ch

def isErr : EngineOutput → Bool
  | .error _ => true
  | .ok _ _ _ _ => false

/-- The special-state list computed at the end of state_engine.py
`apply_event`, from the already-clamped state. -/
def specialOf (s : EngineState) : List String :=
  (if 7 ≤ s.disappointment then ["distancing_mode"] else []) ++
  (if 8 ≤ s.tension then ["high_alert"] else []) ++
  (if s.warmth ≤ -3 then ["cold_mode"] else [])

/-- state_engine.py `apply_event(state, event, content)`; `content = none`
models Python `content=None`. -/
def engineApplyEvent (s : EngineState) (event : String)
    (content : Option (List Char)) (now : String) :
    EngineState × EngineOutput :=
  match engineLookup event with
  | none => (s, .error ("Unknown event: " ++ event))
  | some tbl =>
      let isRetr : Bool :=
        event = "retraction_seen" &&
          (match content with | none => false | some c => !c.isEmpty)
      let hasKw : Bool :=
        match content with
        | none => false
        | some c => emotionalKeywords.any (fun kw => occursIn kw c)
      let changes :=
        if isRetr && hasKw then
          setAssoc tbl "tension" (getAssoc tbl "tension" 0 + 2)
        else tbl
      let s1 :=
        if isRetr then
          { s with retraction_memory :=
              lastN 5 (s.retraction_memory ++
                [⟨(content.getD []).take 50, now, s.tension⟩]) }
        else s
      let s2 := engineApplyDeltas s1 changes
      let s3 := { s2 with last_interaction := now }
      let s4 := engineClamp s3
      (s4, .ok s s4 changes (specialOf s4))

/-! ## CLI `apply` subcommand (state_engine.py `main`)

The state file is modelled as `Option EngineState` (`none` = missing path,
which `load_state` maps to the default state; `save_state` writes the full
state).  `apply` saves only when the result dict carries no `"error"` key. -/

def cliApply (file : Option EngineState) (event : String)
    (content : Option (List Char)) (now : String) :
    Option EngineState × EngineOutput :=
  let s := file.getD defaultE
  let r := engineApplyEvent s event content now
  match r.2 with
  | .error m => (file, .error m)
  | o => (some r.1, o)

/-! ## Control-tag protocol (src/games/invisible-wall/client.py)

The six compiled patterns:
  TYPING   `<!--typing:([^>]+)-->`
  PAUSE    `<!--pause:(\d+)-->`
  STATE    `<!--state:([^>]+)-->`
  PRESENCE `<!--presence:([^>]+)-->`
  READ     `<!--read:([^>]+)-->`
  PACE     `<!--pace:(\w+)-->`
`_parse_control_tags` extracts a few groups with `.search` and then deletes
every match of all six patterns with `.sub("", ...)`, finally `.strip()`s.

For each pattern, a match at a position is: the literal opening marker, then
the group, then `-->`.  Because the `[^>]+` group cannot cross a `>` and the
`\d+`/`\w+` groups cannot contain `-`, greedy matching with backtracking
reduces to: take the maximal run of group characters, and
* for `[^>]+`: the run (which stops at the first `>`) must have length ≥ 3 and
  end in `--`, and that first `>` closes the tag;
* for `\d+`/`\w+`: the maximal run must be nonempty and be followed by the
  literal `-->`. -/

/-- Maximal run of characters satisfying `P` and the remainder
(`itertools.takewhile`-style span). -/
def spanP (P : Char → Bool) : List Char → List Char × List Char
  | [] => ([], [])
  | c :: cs =>
      if P c then
        let r := spanP P cs
        (c :: r.1, r.2)
      else ([], c :: cs)

lemma spanP_append (P : Char → Bool) (l : List Char) :
    (spanP P l).1 ++ (spanP P l).2 = l := by
  induction l with
  | nil => simp [spanP]
  | cons c cs ih =>
      by_cases h : P c
      · simp [spanP, h, ih]
      · simp [spanP, h]

lemma spanP_of_split (P : Char → Bool) :
    ∀ (run rest : List Char), (∀ c ∈ run, P c = true) →
      (∀ c, rest.head? = some c → P c = false) →
      spanP P (run ++ rest) = (run, rest)
  | [], [], _, _ => by simp [spanP]
  | [], c :: rest, _, h2 => by
      simp only [List.nil_append, spanP]
      rw [h2 c rfl]
      simp
  | a :: run, rest, h1, h2 => by
      have ha : P a = true := h1 a (List.mem_cons_self a run)
      have ih := spanP_of_split P run rest
        (fun c hc => h1 c (List.mem_cons_of_mem a hc)) h2
      show spanP P (a :: (run ++ rest)) = (a :: run, rest)
      unfold spanP
      rw [ha]
      simp only [if_true, ih]

/-- Body class of a pattern group: `[^>]+`, or a character class
(`\d+`, `\w+`). -/
inductive BodyMode where
  | nonGt
  | cls (P : Char → Bool)

/-- One compiled control-tag pattern: literal opening marker + group mode
(the closing `-->` is shared by all six). -/
structure TagPat where
  pre : List Char
  mode : BodyMode

def closer : List Char := ['-', '-', '>']

/-- The `[^>]+` tail test on a span `(run, rest)` of the text after the
marker: the run up to the first `>` must have length ≥ 3 and end in `--`, and
a `>` must exist (`rest ≠ []`); group 1 is the run minus the final `--`. -/
def nonGtCheck (k : ℕ) (sp : List Char × List Char) : Option (ℕ × List Char) :=
  if 3 ≤ sp.1.length ∧ sp.1.drop (sp.1.length - 2) = ['-', '-'] ∧ sp.2 ≠ []
  then some (k + sp.1.length + 1, sp.1.take (sp.1.length - 2))
  else none

/-- The `\d+` / `\w+` tail test on a span `(run, rest)`: nonempty maximal run
of class characters followed by the literal `-->`. -/
def clsCheck (k : ℕ) (sp : List Char × List Char) : Option (ℕ × List Char) :=
  if sp.1 ≠ [] ∧ closer.isPrefixOf sp.2 then some (k + sp.1.length + 3, sp.1)
  else none

/-- First match of the pattern at the very start of `cs`, as
`(matched length, group 1 text)`, with the greedy/backtracking semantics
described above; `none` if no match starts at this position. -/
def matchAt (p : TagPat) (cs : List Char) : Option (ℕ × List Char) :=
  if p.pre.isPrefixOf cs then
    match p.mode with
    | .nonGt =>
        nonGtCheck p.pre.length (spanP (fun c => c ≠ '>') (cs.drop p.pre.length))
    | .cls P => clsCheck p.pre.length (spanP P (cs.drop p.pre.length))
  else none

lemma nonGtCheck_pos {k : ℕ} {sp : List Char × List Char} {n : ℕ}
    {g : List Char} (h : nonGtCheck k sp = some (n, g)) : 1 ≤ n := by
  unfold nonGtCheck at h
  split at h
  · simp only [Option.some.injEq, Prod.mk.injEq] at h
    omega
  · simp at h

lemma clsCheck_pos {k : ℕ} {sp : List Char × List Char} {n : ℕ}
    {g : List Char} (h : clsCheck k sp = some (n, g)) : 1 ≤ n := by
  unfold clsCheck at h
  split at h
  · simp only [Option.some.injEq, Prod.mk.injEq] at h
    omega
  · simp at h

lemma matchAt_pos {p : TagPat} {cs : List Char} {n : ℕ} {g : List Char}
    (h : matchAt p cs = some (n, g)) : 1 ≤ n := by
  unfold matchAt at h
  split at h
  · split at h
    · exact nonGtCheck_pos h
    · exact clsCheck_pos h
  · simp at h

/-- `re.sub(pattern, "", text)` with fuel (the scan is not structurally
recursive because a match skips `n` characters; fuel `text.length` always
suffices since every step consumes at least one character). -/
def subPatF (p : TagPat) : ℕ → List Char → List Char
  | _, [] => []
  | 0, c :: cs => c :: cs
  | f + 1, c :: cs =>
      match matchAt p (c :: cs) with
      | some (n, _) => subPatF p f ((c :: cs).drop n)
      | none => c :: subPatF p f cs

/-- `re.sub(pattern, "", text)`. -/
def subPat (p : TagPat) (cs : List Char) : List Char := subPatF p cs.length cs

/-- `pattern.search(text)`: group 1 of the leftmost match. -/
def findGroupF (p : TagPat) : ℕ → List Char → Option (List Char)
  | _, [] => none
  | 0, _ :: _ => none
  | f + 1, c :: cs =>
      match matchAt p (c :: cs) with
      | some (_, g) => some g
      | none => findGroupF p f cs

def findGroup (p : TagPat) (cs : List Char) : Option (List Char) :=
  findGroupF p cs.length cs

/-- ASCII model of `str.strip()` whitespace. -/
def isPySpace (c : Char) : Bool :=
  c = ' ' || c = '\t' || c = '\n' || c = '\x0b' || c = '\x0c' || c = '\r'

/-- Python `str.strip()`. -/
def pyStrip (l : List Char) : List Char :=
  ((l.dropWhile isPySpace).reverse.dropWhile isPySpace).reverse

/-- Python `str.split(sep)` for a one-character separator (keeps empties). -/
def pySplit (sep : Char) : List Char → List (List Char)
  | [] => [[]]
  | c :: cs =>
      let r := pySplit sep cs
      if c = sep then [] :: r
      else
        match r with
        | h :: t => (c :: h) :: t
        | [] => [[c]]

/-- Python `param.split("=", 1)` guarded by `"=" in param`: the part before
the first `=` and the part after it, or `none` when there is no `=`. -/
def splitFirstEq : List Char → Option (List Char × List Char)
  | [] => none
  | c :: cs =>
      if c = '=' then some ([], cs)
      else (splitFirstEq cs).map (fun p => (c :: p.1, p.2))

/-- ASCII model of Python `int(str)` on an already-stripped string:
optional sign, then a nonempty run of digits. -/
def pyParseInt (l : List Char) : Option ℤ :=
  let digits : List Char → Option ℤ := fun ds =>
    if ds ≠ [] ∧ ds.all Char.isDigit then
      some (ds.foldl (fun a c => a * 10 + (c.toNat - '0'.toNat : ℤ)) 0)
    else none
  match l with
  | '+' :: ds => digits ds
  | '-' :: ds => (digits ds).map Int.neg
  | ds => digits ds

/-- `\w` of Python `re` (Unicode approximated by accepting every code point
≥ 0x80). -/
def isWordChar (c : Char) : Bool :=
  c.isAlphanum || c = '_' || 128 ≤ c.toNat

def typingPat : TagPat := ⟨"<!--typing:".toList, .nonGt⟩
def pausePat : TagPat := ⟨"<!--pause:".toList, .cls Char.isDigit⟩
def statePat : TagPat := ⟨"<!--state:".toList, .nonGt⟩
def presencePat : TagPat := ⟨"<!--presence:".toList, .nonGt⟩
def readPat : TagPat := ⟨"<!--read:".toList, .nonGt⟩
def pacePat : TagPat := ⟨"<!--pace:".toList, .cls isWordChar⟩

/-- The six `.sub("", ...)` passes of `_parse_control_tags`, in source order,
followed by `.strip()`. -/
def stripTags (cs : List Char) : List Char :=
  subPat pacePat (subPat readPat (subPat presencePat (subPat statePat
    (subPat pausePat (subPat typingPat cs)))))

/-- The `controls` dict built by `_parse_control_tags`. -/
structure Controls where
  typing_duration : Option ℤ
  pauses : List (ℕ × ℤ)
  pace : List Char
  state_updates : List (List Char × ℤ)
  deriving DecidableEq, Repr

/-- Association write for the `state_updates` dict (string keys). -/
def setAssocC : List (List Char × ℤ) → List Char → ℤ → List (List Char × ℤ)
  | [], k, v => [(k, v)]
  | (k', v') :: t, k, v =>
      if k' = k then (k, v) :: t else (k', v') :: setAssocC t k v

/-- The typing-duration extraction: split group 1 on `,`; for each param with
an `=`, if the stripped key is `duration`, try `int()` on the stripped value
(a failed parse is ignored). -/
def extractDuration (g : List Char) : Option ℤ :=
  (pySplit ',' g).foldl
    (fun acc param =>
      match splitFirstEq param with
      | none => acc
      | some (k, v) =>
          if pyStrip k = "duration".toList then
            match pyParseInt (pyStrip v) with
            | some n => some n
            | none => acc
          else acc)
    none

/-- The state-updates extraction: split group 1 on `,`; for each param with an
`=`, try `int()` on the stripped value and store under the stripped key (a
failed parse drops only that key). -/
def extractStateUpdates (g : List Char) : List (List Char × ℤ) :=
  (pySplit ',' g).foldl
    (fun acc param =>
      match splitFirstEq param with
      | none => acc
      | some (k, v) =>
          match pyParseInt (pyStrip v) with
          | some n => setAssocC acc (pyStrip k) n
          | none => acc)
    []

/-- `_parse_control_tags(text)`: the `(clean, controls)` pair.  Note: the
source initialises `controls["pauses"] = {}` and never fills it (the inline
comment defers inline-pause handling), so `pauses` is always empty. -/
def parseControlTags (text : List Char) : List Char × Controls :=
  let typing_duration :=
    match findGroup typingPat text with
    | none => none
    | some g => extractDuration g
  let pace :=
    match findGroup pacePat text with
    | none => "normal".toList
    | some g => g
  let state_updates :=
    match findGroup statePat text with
    | none => []
    | some g => extractStateUpdates g
  (pyStrip (stripTags text),
   { typing_duration := typing_duration
     pauses := []
     pace := pace
     state_updates := state_updates })

/-! ## A grammar of well-formed tag interleavings

To prove the tag-stripping guarantee we describe texts that interleave
ordinary characters (no `<`) with well-formed tags whose bodies avoid `<`
(and `>`): `interOk S cs` checks that every `<` in `cs` opens a well-formed
tag whose kind lies in `S`. -/

inductive Kind where
  | typing
  | pause
  | state
  | presence
  | read
  | pace
  deriving DecidableEq, Repr

def kindPre : Kind → List Char
  | .typing => "<!--typing:".toList
  | .pause => "<!--pause:".toList
  | .state => "<!--state:".toList
  | .presence => "<!--presence:".toList
  | .read => "<!--read:".toList
  | .pace => "<!--pace:".toList

def kindPat : Kind → TagPat
  | .typing => typingPat
  | .pause => pausePat
  | .state => statePat
  | .presence => presencePat
  | .read => readPat
  | .pace => pacePat

/-- Admissible body characters for a well-formed tag of each kind.  For the
`[^>]+` kinds the grammar additionally excludes `<` (a body containing `<`
can splice with surrounding text and defeat the stripping). -/
def bodyOk : Kind → Char → Bool
  | .pause => Char.isDigit
  | .pace => isWordChar
  | _ => fun c => c ≠ '>' && c ≠ '<'

def isClsKind : Kind → Bool
  | .pause => true
  | .pace => true
  | _ => false

/-- Checker tail for `[^>]+` kinds on a `spanP (bodyOk k)` split. -/
def tagSplitNonGt (sp : List Char × List Char) : Option (List Char) :=
  if 3 ≤ sp.1.length ∧ sp.1.drop (sp.1.length - 2) = ['-', '-'] ∧
      sp.2.head? = some '>'
  then some (sp.2.drop 1)
  else none

/-- Checker tail for `\d+` / `\w+` kinds on a `spanP (bodyOk k)` split. -/
def tagSplitCls (sp : List Char × List Char) : Option (List Char) :=
  if sp.1 ≠ [] ∧ closer.isPrefixOf sp.2 then some (sp.2.drop 3) else none

/-- `tagSplit k cs = some rest` iff `cs` starts with a well-formed `k`-tag
(marker, nonempty admissible body, `-->`), with `rest` the text after it. -/
def tagSplit (k : Kind) (cs : List Char) : Option (List Char) :=
  if (kindPre k).isPrefixOf cs then
    if isClsKind k then
      tagSplitCls (spanP (bodyOk k) (cs.drop (kindPre k).length))
    else tagSplitNonGt (spanP (bodyOk k) (cs.drop (kindPre k).length))
  else none

/-- Try the six kinds in turn (at most one can succeed: the six markers are
mutually non-prefix). -/
def splitTagAny (cs : List Char) : Option (Kind × List Char) :=
  match tagSplit .typing cs with
  | some r => some (.typing, r)
  | none =>
  match tagSplit .pause cs with
  | some r => some (.pause, r)
  | none =>
  match tagSplit .state cs with
  | some r => some (.state, r)
  | none =>
  match tagSplit .presence cs with
  | some r => some (.presence, r)
  | none =>
  match tagSplit .read cs with
  | some r => some (.read, r)
  | none =>
  match tagSplit .pace cs with
  | some r => some (.pace, r)
  | none => none

def kmem (k : Kind) (S : List Kind) : Bool := S.any (fun j => decide (j = k))

/-- Fuelled interleaving checker: every `<` opens a well-formed tag of a kind
in `S`; other characters are ordinary. -/
def interOkF : ℕ → List Kind → List Char → Bool
  | _, _, [] => true
  | 0, _, _ :: _ => false
  | f + 1, S, c :: cs =>
      if c = '<' then
        match splitTagAny (c :: cs) with
        | some (k, rest) => kmem k S && interOkF f S rest
        | none => false
      else interOkF f S cs

def interOk (S : List Kind) (cs : List Char) : Bool := interOkF cs.length S cs

def allKinds : List Kind :=
  [.typing, .pause, .state, .presence, .read, .pace]

/-- The six marker substrings of the control-tag protocol. -/
def markers : List (List Char) :=
  ["<!--typing:".toList, "<!--pause:".toList, "<!--state:".toList,
   "<!--presence:".toList, "<!--read:".toList, "<!--pace:".toList]

/-! ## Timing model (state.py `calculate_timing`)

Randomness is explicit: `Draws` carries the not-yet-consumed integer draws
(for `random.randint`, inclusive bounds) and unit-interval draws (for
`random.random()`), plus a flag `ok` that stays `true` iff every consumed
draw lay in the range requested by the corresponding call site. -/

structure Draws where
  ints : List ℤ
  floats : List ℚ
  ok : Bool
  deriving DecidableEq, Repr

/-- `random.randint(a, b)` (result in `[a, b]`, both ends included). -/
def rInt (a b : ℤ) (r : Draws) : ℤ × Draws :=
  match r.ints with
  | [] => (a, { r with ok := false })
  | x :: t =>
      (x, { ints := t, floats := r.floats,
            ok := r.ok && decide (a ≤ x ∧ x ≤ b) })

/-- `random.random()` (result in `[0, 1)`). -/
def rFloat (r : Draws) : ℚ × Draws :=
  match r.floats with
  | [] => (0, { r with ok := false })
  | x :: t =>
      (x, { ints := r.ints, floats := t,
            ok := r.ok && decide (0 ≤ x ∧ x < 1) })

/-- The result dict of `calculate_timing`. -/
structure Timing where
  typing_delay_ms : ℤ
  read_delay_ms : ℤ
  pace_ms_per_char : ℤ
  may_abort : Bool
  should_reply : Bool
  deriving DecidableEq, Repr

/-- state.py `calculate_timing(state, event)`, with the random draws made
explicit.  The comparison thresholds 0.3/0.5/0.7/0.2 are exact dyadic
rationals in the model (the tiny binary-float representation error of the
Python literals affects only which unit draws fall below them, not any bound
proved here). -/
def calcTiming (s : GameState) (event : String) (r : Draws) : Timing × Draws :=
  let t0 : Timing :=
    { typing_delay_ms := 0, read_delay_ms := 0, pace_ms_per_char := 80,
      may_abort := false, should_reply := true }
  -- base typing delay and pace from the warmth band
  let step1 : ℤ × Timing × Draws :=
    if s.warmth ≤ -3 then
      let d := rInt 8000 15000 r
      let p := rInt 30 50 d.2
      (d.1, { t0 with pace_ms_per_char := p.1 }, p.2)
    else if s.warmth ≤ -1 then
      let d := rInt 5000 10000 r
      let p := rInt 60 80 d.2
      (d.1, { t0 with pace_ms_per_char := p.1 }, p.2)
    else if s.warmth ≤ 1 then
      let d := rInt 4000 8000 r
      let p := rInt 70 90 d.2
      (d.1, { t0 with pace_ms_per_char := p.1 }, p.2)
    else if s.warmth ≤ 3 then
      let d := rInt 2000 4000 r
      let p := rInt 60 80 d.2
      (d.1, { t0 with pace_ms_per_char := p.1 }, p.2)
    else
      let d := rInt 1000 2000 r
      let p := rInt 50 70 d.2
      (d.1, { t0 with pace_ms_per_char := p.1 }, p.2)
  -- event modifiers
  let step2 : ℤ × Timing × Draws :=
    if event = "retraction" then
      let d := rInt 10000 20000 step1.2.2
      let p := rInt 120 180 d.2
      if 5 < s.tension then
        let f := rFloat p.2
        (step1.1 + d.1,
         { step1.2.1 with
           pace_ms_per_char := p.1
           may_abort := decide (f.1 < 0.3) }, f.2)
      else
        (step1.1 + d.1, { step1.2.1 with pace_ms_per_char := p.1 }, p.2)
    else if event = "confession" then
      let d := rInt 15000 30000 step1.2.2
      let p := rInt 150 200 d.2
      if s.warmth < 2 then
        let f1 := rFloat p.2
        let f2 := rFloat f1.2
        (step1.1 + d.1,
         { step1.2.1 with
           pace_ms_per_char := p.1
           may_abort := decide (f1.1 < 0.5)
           should_reply := decide (f2.1 < 0.7) }, f2.2)
      else
        (step1.1 + d.1, { step1.2.1 with pace_ms_per_char := p.1 }, p.2)
    else if event = "ambiguous" then
      let d := rInt 5000 10000 step1.2.2
      let p := rInt 100 150 d.2
      (step1.1 + d.1, { step1.2.1 with pace_ms_per_char := p.1 }, p.2)
    else step1
  -- tension override
  let step3 : ℤ × Timing × Draws :=
    if 7 < s.tension then
      let d := rInt 2000 30000 step2.2.2
      let p := rInt 50 200 d.2
      let f := rFloat p.2
      (d.1, { step2.2.1 with
              pace_ms_per_char := p.1
              may_abort := decide (f.1 < 0.2) }, f.2)
    else step2
  let t4 := { step3.2.1 with typing_delay_ms := step3.1 }
  -- read delay from the warmth band
  let rd : ℤ × Draws :=
    if 3 < s.warmth then rInt 5000 30000 step3.2.2
    else if 0 < s.warmth then rInt 30000 120000 step3.2.2
    else rInt 120000 300000 step3.2.2
  ({ t4 with read_delay_ms := rd.1 }, rd.2)

/-! ## Properties of the tag grammar and the sub passes -/

lemma spanP_fst_all (P : Char → Bool) :
    ∀ l : List Char, ∀ c ∈ (spanP P l).1, P c = true := by
  intro l
  induction l with
  | nil => simp [spanP]
  | cons a l ih =>
      by_cases h : P a
      · simp only [spanP, h, if_true]
        intro c hc
        rcases List.mem_cons.mp hc with rfl | hc
        · exact h
        · exact ih c hc
      · simp [spanP, h]

lemma kindPre_cons (k : Kind) :
    ∃ t, kindPre k = '<' :: t ∧ ∀ c ∈ t, c ≠ '<' := by
  cases k
  case typing => exact ⟨"!--typing:".toList, by decide, by decide⟩
  case pause => exact ⟨"!--pause:".toList, by decide, by decide⟩
  case state => exact ⟨"!--state:".toList, by decide, by decide⟩
  case presence => exact ⟨"!--presence:".toList, by decide, by decide⟩
  case read => exact ⟨"!--read:".toList, by decide, by decide⟩
  case pace => exact ⟨"!--pace:".toList, by decide, by decide⟩

lemma kindPre_ne_nil (k : Kind) : kindPre k ≠ [] := by
  cases k <;> decide

lemma kindPat_pre (k : Kind) : (kindPat k).pre = kindPre k := by
  cases k <;> rfl

/-- No marker is a prefix of a different marker. -/
lemma kindPre_not_pre (k j : Kind) (h : k ≠ j) :
    (kindPre k).isPrefixOf (kindPre j) = false := by
  cases k <;> cases j <;> first | exact (h rfl).elim | decide

lemma bodyOk_no_lt {k : Kind} {c : Char} (h : bodyOk k c = true) : c ≠ '<' := by
  intro hc
  subst hc
  cases k <;> revert h <;> decide

lemma bodyOk_dash_nonGt {k : Kind} (h : isClsKind k = false) :
    bodyOk k '-' = true := by
  cases k <;> first | exact absurd h (by decide) | decide

lemma bodyOk_gt_false (k : Kind) : bodyOk k '>' = false := by
  cases k <;> decide

lemma bodyOk_dash_cls {k : Kind} (h : isClsKind k = true) :
    bodyOk k '-' = false := by
  cases k <;> first | exact absurd h (by decide) | decide

lemma kindPat_mode_cls {k : Kind} (h : isClsKind k = true) :
    (kindPat k).mode = .cls (bodyOk k) := by
  cases k <;> first | exact absurd h (by decide) | rfl

lemma kindPat_mode_nonGt {k : Kind} (h : isClsKind k = false) :
    (kindPat k).mode = .nonGt := by
  cases k <;> first | exact absurd h (by decide) | rfl

/-- A successful `tagSplit` exhibits the text as marker ++ body ++ `-->` ++
rest, with a nonempty admissible body. -/
lemma tagSplit_decomp {k : Kind} {cs rest : List Char}
    (h : tagSplit k cs = some rest) :
    ∃ body, body ≠ [] ∧ (∀ c ∈ body, bodyOk k c = true) ∧
      cs = kindPre k ++ (body ++ (closer ++ rest)) := by
  unfold tagSplit at h
  split at h
  case isFalse => simp at h
  case isTrue hpre =>
    have hdec := isPrefixOf_decomp _ _ hpre
    have hsp := spanP_append (bodyOk k) (cs.drop (kindPre k).length)
    have hall := spanP_fst_all (bodyOk k) (cs.drop (kindPre k).length)
    split at h
    case isTrue hcls =>
      unfold tagSplitCls at h
      split at h
      case isFalse => simp at h
      case isTrue hcond =>
        simp only [Option.some.injEq] at h
        set sp := spanP (bodyOk k) (cs.drop (kindPre k).length) with hspdef
        have hc2 : sp.2 = closer ++ rest := by
          have hd := isPrefixOf_decomp _ _ hcond.2
          rw [← h]
          simpa [closer] using hd
        refine ⟨sp.1, hcond.1, hall, ?_⟩
        calc cs = kindPre k ++ cs.drop (kindPre k).length := hdec
          _ = kindPre k ++ (sp.1 ++ sp.2) := by rw [hsp]
          _ = kindPre k ++ (sp.1 ++ (closer ++ rest)) := by rw [hc2]
    case isFalse hcls =>
      unfold tagSplitNonGt at h
      split at h
      case isFalse => simp at h
      case isTrue hcond =>
        obtain ⟨hlen, hdash, hhead⟩ := hcond
        simp only [Option.some.injEq] at h
        set sp := spanP (bodyOk k) (cs.drop (kindPre k).length) with hspdef
        refine ⟨sp.1.take (sp.1.length - 2), ?_, ?_, ?_⟩
        · have : (sp.1.take (sp.1.length - 2)).length = sp.1.length - 2 := by
            rw [List.length_take]
            omega
          intro hne
          rw [hne] at this
          simp at this
          omega
        · intro c hc
          exact hall c (List.take_subset _ _ hc)
        · obtain ⟨c0, t0, hrest2⟩ : ∃ c0 t0, sp.2 = c0 :: t0 := by
            cases hx : sp.2 with
            | nil => rw [hx] at hhead; simp at hhead
            | cons c0 t0 => exact ⟨c0, t0, rfl⟩
          have hc0 : c0 = '>' := by
            rw [hrest2] at hhead
            simpa using hhead
          have hrest3 : rest = t0 := by
            rw [← h, hrest2]
            rfl
          have hrun : sp.1 = sp.1.take (sp.1.length - 2) ++ ['-', '-'] := by
            conv_lhs => rw [← List.take_append_drop (sp.1.length - 2) sp.1]
            rw [hdash]
          rw [hdec]
          congr 1
          rw [← hsp, hrest2, hc0, hrest3]
          rw [hrun]
          simp [closer]

lemma tagSplit_complete_cls {k : Kind} (hcls : isClsKind k = true)
    {body rest : List Char} (hb : body ≠ [])
    (hok : ∀ c ∈ body, bodyOk k c = true) :
    tagSplit k (kindPre k ++ (body ++ (closer ++ rest))) = some rest := by
  unfold tagSplit
  rw [if_pos (isPrefixOf_append_self _ _), List.drop_left, hcls, if_pos rfl]
  have hsplit : body ++ (closer ++ rest) = body ++ (closer ++ rest) := rfl
  rw [spanP_of_split (bodyOk k) body (closer ++ rest) hok
    (by intro c hc; simp [closer] at hc; rw [← hc]; exact bodyOk_dash_cls hcls)]
  unfold tagSplitCls
  rw [if_pos ⟨hb, isPrefixOf_append_self _ _⟩]
  simp [closer]

lemma tagSplit_complete_nonGt {k : Kind} (hcls : isClsKind k = false)
    {body rest : List Char} (hb : body ≠ [])
    (hok : ∀ c ∈ body, bodyOk k c = true) :
    tagSplit k (kindPre k ++ (body ++ (closer ++ rest))) = some rest := by
  unfold tagSplit
  rw [if_pos (isPrefixOf_append_self _ _), List.drop_left, hcls]
  rw [if_neg (by simp)]
  have hre : body ++ (closer ++ rest) = (body ++ ['-', '-']) ++ ('>' :: rest) := by
    simp [closer]
  rw [hre]
  rw [spanP_of_split (bodyOk k) (body ++ ['-', '-']) ('>' :: rest)
    (by
      intro c hc
      rcases List.mem_append.mp hc with hc | hc
      · exact hok c hc
      · simp at hc
        rw [hc]
        exact bodyOk_dash_nonGt hcls)
    (by
      intro c hc
      simp at hc
      rw [← hc]
      exact bodyOk_gt_false k)]
  unfold tagSplitNonGt
  rw [if_pos]
  · rfl
  · refine ⟨?_, ?_, by simp⟩
    · have : 0 < body.length := List.length_pos.mpr hb
      simp only [List.length_append, List.length_cons, List.length_nil]
      omega
    · have : (body ++ ['-', '-']).length - 2 = body.length := by
        simp only [List.length_append, List.length_cons, List.length_nil]
        omega
      rw [this]
      exact List.drop_left body ['-', '-']

lemma tagSplit_complete {k : Kind} {body rest : List Char} (hb : body ≠ [])
    (hok : ∀ c ∈ body, bodyOk k c = true) :
    tagSplit k (kindPre k ++ (body ++ (closer ++ rest))) = some rest := by
  cases hcls : isClsKind k with
  | true => exact tagSplit_complete_cls hcls hb hok
  | false => exact tagSplit_complete_nonGt hcls hb hok

/-- Only one kind's checker can succeed on a given text. -/
lemma tagSplit_of_ne {k j : Kind} {cs rest : List Char} (hne : j ≠ k)
    (h : tagSplit k cs = some rest) : tagSplit j cs = none := by
  obtain ⟨body, _, _, hcs⟩ := tagSplit_decomp h
  unfold tagSplit
  rw [if_neg]
  intro hpre
  rw [hcs] at hpre
  rcases isPrefixOf_append_cases _ _ _ hpre with hc | hc
  · rw [kindPre_not_pre j k hne] at hc
    exact Bool.false_ne_true hc
  · rw [kindPre_not_pre k j (Ne.symm hne)] at hc
    exact Bool.false_ne_true hc

lemma splitTagAny_some {cs : List Char} {k : Kind} {rest : List Char}
    (h : splitTagAny cs = some (k, rest)) : tagSplit k cs = some rest := by
  unfold splitTagAny at h
  split at h
  next r hr => cases h; exact hr
  next =>
  split at h
  next r hr => cases h; exact hr
  next =>
  split at h
  next r hr => cases h; exact hr
  next =>
  split at h
  next r hr => cases h; exact hr
  next =>
  split at h
  next r hr => cases h; exact hr
  next =>
  split at h
  next r hr => cases h; exact hr
  next => cases h

lemma splitTagAny_complete {cs : List Char} {k : Kind} {rest : List Char}
    (h : tagSplit k cs = some rest) : splitTagAny cs = some (k, rest) := by
  cases k
  case typing => simp only [splitTagAny, h]
  case pause =>
    have h1 : tagSplit .typing cs = none := tagSplit_of_ne (by decide) h
    simp only [splitTagAny, h1, h]
  case state =>
    have h1 : tagSplit .typing cs = none := tagSplit_of_ne (by decide) h
    have h2 : tagSplit .pause cs = none := tagSplit_of_ne (by decide) h
    simp only [splitTagAny, h1, h2, h]
  case presence =>
    have h1 : tagSplit .typing cs = none := tagSplit_of_ne (by decide) h
    have h2 : tagSplit .pause cs = none := tagSplit_of_ne (by decide) h
    have h3 : tagSplit .state cs = none := tagSplit_of_ne (by decide) h
    simp only [splitTagAny, h1, h2, h3, h]
  case read =>
    have h1 : tagSplit .typing cs = none := tagSplit_of_ne (by decide) h
    have h2 : tagSplit .pause cs = none := tagSplit_of_ne (by decide) h
    have h3 : tagSplit .state cs = none := tagSplit_of_ne (by decide) h
    have h4 : tagSplit .presence cs = none := tagSplit_of_ne (by decide) h
    simp only [splitTagAny, h1, h2, h3, h4, h]
  case pace =>
    have h1 : tagSplit .typing cs = none := tagSplit_of_ne (by decide) h
    have h2 : tagSplit .pause cs = none := tagSplit_of_ne (by decide) h
    have h3 : tagSplit .state cs = none := tagSplit_of_ne (by decide) h
    have h4 : tagSplit .presence cs = none := tagSplit_of_ne (by decide) h
    have h5 : tagSplit .read cs = none := tagSplit_of_ne (by decide) h
    simp only [splitTagAny, h1, h2, h3, h4, h5, h]

lemma splitTagAny_length {cs : List Char} {k : Kind} {rest : List Char}
    (h : splitTagAny cs = some (k, rest)) : rest.length < cs.length := by
  obtain ⟨body, hb, _, hcs⟩ := tagSplit_decomp (splitTagAny_some h)
  have h1 : 0 < (kindPre k).length := List.length_pos.mpr (kindPre_ne_nil k)
  have h2 : 0 < body.length := List.length_pos.mpr hb
  rw [hcs]
  simp only [List.length_append, closer, List.length_cons, List.length_nil]
  omega

lemma subPatF_congr (p : TagPat) :
    ∀ f g cs, cs.length ≤ f → cs.length ≤ g →
      subPatF p f cs = subPatF p g cs := by
  intro f
  induction f with
  | zero =>
      intro g cs hf _
      have : cs = [] := List.length_eq_zero.mp (Nat.le_zero.mp hf)
      subst this
      cases g <;> rfl
  | succ f ih =>
      intro g cs hf hg
      cases cs with
      | nil => cases g <;> rfl
      | cons c cs' =>
          cases g with
          | zero => simp at hg
          | succ g' =>
              cases hm : matchAt p (c :: cs') with
              | none =>
                  simp only [subPatF, hm]
                  exact congrArg _ (ih g' cs' (by simpa using hf)
                    (by simpa using hg))
              | some v =>
                  obtain ⟨n, gg⟩ := v
                  simp only [subPatF, hm]
                  have hn := matchAt_pos hm
                  apply ih
                  · simp only [List.length_drop, List.length_cons]
                    simp only [List.length_cons] at hf
                    omega
                  · simp only [List.length_drop, List.length_cons]
                    simp only [List.length_cons] at hg
                    omega

lemma subPat_nil (p : TagPat) : subPat p [] = [] := rfl

lemma subPat_cons_none {p : TagPat} {c : Char} {cs : List Char}
    (h : matchAt p (c :: cs) = none) :
    subPat p (c :: cs) = c :: subPat p cs := by
  show subPatF p ((c :: cs).length) (c :: cs) = c :: subPatF p cs.length cs
  simp only [List.length_cons, subPatF, h]

lemma subPat_cons_match {p : TagPat} {c : Char} {cs : List Char} {n : ℕ}
    {g : List Char} (h : matchAt p (c :: cs) = some (n, g)) :
    subPat p (c :: cs) = subPat p ((c :: cs).drop n) := by
  show subPatF p ((c :: cs).length) (c :: cs) = _
  simp only [List.length_cons, subPatF, h]
  apply subPatF_congr
  · have := matchAt_pos h
    simp only [List.length_drop, List.length_cons]
    omega
  · exact le_rfl

lemma matchAt_none_of_head {p : TagPat} {t : List Char} {c : Char}
    {cs : List Char} (hp : p.pre = '<' :: t) (hc : c ≠ '<') :
    matchAt p (c :: cs) = none := by
  have hfalse : ¬(p.pre.isPrefixOf (c :: cs) = true) := by
    rw [hp]
    simp only [List.isPrefixOf, Bool.and_eq_true, beq_iff_eq]
    intro hcontra
    exact hc hcontra.1.symm
  unfold matchAt
  rw [if_neg hfalse]

lemma subPat_copy {p : TagPat} {t0 : List Char} (hp : p.pre = '<' :: t0) :
    ∀ (u cs : List Char), (∀ c ∈ u, c ≠ '<') →
      subPat p (u ++ cs) = u ++ subPat p cs := by
  intro u
  induction u with
  | nil => simp
  | cons a u ih =>
      intro cs hu
      have ha : a ≠ '<' := hu a (List.mem_cons_self a u)
      have h1 : matchAt p (a :: (u ++ cs)) = none := matchAt_none_of_head hp ha
      calc subPat p ((a :: u) ++ cs) = subPat p (a :: (u ++ cs)) := rfl
        _ = a :: subPat p (u ++ cs) := subPat_cons_none h1
        _ = a :: (u ++ subPat p cs) := by
              rw [ih cs (fun c hc => hu c (List.mem_cons_of_mem a hc))]
        _ = (a :: u) ++ subPat p cs := rfl

lemma drop_pre_body_closer (pre body rest : List Char) :
    (pre ++ (body ++ (closer ++ rest))).drop (pre.length + body.length + 3) =
      rest := by
  have h1 : pre ++ (body ++ (closer ++ rest)) = (pre ++ body ++ closer) ++ rest := by
    simp [List.append_assoc]
  have h2 : (pre ++ body ++ closer).length = pre.length + body.length + 3 := by
    simp [closer]
    omega
  rw [h1, ← h2, List.drop_left]

lemma bodyOk_ne_gt {k : Kind} {c : Char} (hcls : isClsKind k = false)
    (h : bodyOk k c = true) : (decide (c ≠ '>')) = true := by
  cases k <;> first
    | exact absurd hcls (by decide)
    | (simp only [bodyOk, Bool.and_eq_true] at h
       simp [h.1])

/-- The six regex patterns match a well-formed tag of their own kind exactly,
consuming marker + body + `-->` whatever follows. -/
lemma matchAt_tag {k : Kind} {body rest : List Char} (hb : body ≠ [])
    (hok : ∀ c ∈ body, bodyOk k c = true) :
    ∃ g, matchAt (kindPat k) (kindPre k ++ (body ++ (closer ++ rest))) =
      some ((kindPre k).length + body.length + 3, g) := by
  unfold matchAt
  rw [kindPat_pre, if_pos (isPrefixOf_append_self _ _), List.drop_left]
  cases hcls : isClsKind k with
  | true =>
      rw [kindPat_mode_cls hcls]
      show ∃ g, clsCheck (kindPre k).length
        (spanP (bodyOk k) (body ++ (closer ++ rest))) =
          some ((kindPre k).length + body.length + 3, g)
      rw [spanP_of_split (bodyOk k) body (closer ++ rest) hok
        (by intro c hc; simp [closer] at hc; rw [← hc]
            exact bodyOk_dash_cls hcls)]
      unfold clsCheck
      rw [if_pos ⟨hb, isPrefixOf_append_self _ _⟩]
      exact ⟨body, rfl⟩
  | false =>
      rw [kindPat_mode_nonGt hcls]
      show ∃ g, nonGtCheck (kindPre k).length
        (spanP (fun c => decide (c ≠ '>')) (body ++ (closer ++ rest))) =
          some ((kindPre k).length + body.length + 3, g)
      have hre : body ++ (closer ++ rest) =
          (body ++ ['-', '-']) ++ ('>' :: rest) := by simp [closer]
      rw [hre]
      rw [spanP_of_split (fun c => decide (c ≠ '>')) (body ++ ['-', '-'])
        ('>' :: rest)
        (by
          intro c hc
          rcases List.mem_append.mp hc with hc | hc
          · exact bodyOk_ne_gt hcls (hok c hc)
          · simp at hc
            rw [hc]
            decide)
        (by intro c hc; simp at hc; rw [← hc]; decide)]
      unfold nonGtCheck
      rw [if_pos]
      · refine ⟨(body ++ ['-', '-']).take ((body ++ ['-', '-']).length - 2), ?_⟩
        have harith : (kindPre k).length + (body ++ ['-', '-']).length + 1 =
            (kindPre k).length + body.length + 3 := by
          simp only [List.length_append, List.length_cons, List.length_nil]
          omega
        rw [harith]
      · refine ⟨?_, ?_, by simp⟩
        · have : 0 < body.length := List.length_pos.mpr hb
          simp only [List.length_append, List.length_cons, List.length_nil]
          omega
        · have hlen : (body ++ ['-', '-']).length - 2 = body.length := by
            simp only [List.length_append, List.length_cons, List.length_nil]
            omega
          rw [hlen]
          exact List.drop_left body ['-', '-']

/-- Pattern `j` cannot match at the opening of a tag of a different kind. -/
lemma matchAt_other {j k : Kind} (hne : j ≠ k) (X : List Char) :
    matchAt (kindPat j) (kindPre k ++ X) = none := by
  have hfalse : ¬((kindPat j).pre.isPrefixOf (kindPre k ++ X) = true) := by
    rw [kindPat_pre]
    intro hpre
    rcases isPrefixOf_append_cases _ _ _ hpre with hc | hc
    · rw [kindPre_not_pre j k hne] at hc
      exact Bool.false_ne_true hc
    · rw [kindPre_not_pre k j (Ne.symm hne)] at hc
      exact Bool.false_ne_true hc
  unfold matchAt
  rw [if_neg hfalse]

lemma interOkF_congr :
    ∀ f g S (cs : List Char), cs.length ≤ f → cs.length ≤ g →
      interOkF f S cs = interOkF g S cs := by
  intro f
  induction f with
  | zero =>
      intro g S cs hf _
      have : cs = [] := List.length_eq_zero.mp (Nat.le_zero.mp hf)
      subst this
      cases g <;> rfl
  | succ f ih =>
      intro g S cs hf hg
      cases cs with
      | nil => cases g <;> rfl
      | cons c cs' =>
          cases g with
          | zero => simp at hg
          | succ g' =>
              by_cases hc : c = '<'
              · cases hsp : splitTagAny (c :: cs') with
                | none => simp only [interOkF, if_pos hc, hsp]
                | some pr =>
                    obtain ⟨k, rest⟩ := pr
                    simp only [interOkF, if_pos hc, hsp]
                    congr 1
                    apply ih
                    · have := splitTagAny_length hsp
                      simp only [List.length_cons] at this hf
                      omega
                    · have := splitTagAny_length hsp
                      simp only [List.length_cons] at this hg
                      omega
              · simp only [interOkF, if_neg hc]
                exact ih g' S cs' (by simpa using hf) (by simpa using hg)

lemma interOk_cons_ord {S : List Kind} {c : Char} {cs : List Char}
    (hc : c ≠ '<') : interOk S (c :: cs) = interOk S cs := by
  show interOkF (cs.length + 1) S (c :: cs) = interOkF cs.length S cs
  simp only [interOkF, if_neg hc]

lemma interOk_cons_tag {S : List Kind} {c : Char} {cs : List Char} {k : Kind}
    {rest : List Char} (hc : c = '<')
    (hsp : splitTagAny (c :: cs) = some (k, rest)) :
    interOk S (c :: cs) = (kmem k S && interOk S rest) := by
  show interOkF (cs.length + 1) S (c :: cs) = _
  simp only [interOkF, if_pos hc, hsp]
  congr 1
  apply interOkF_congr
  · have := splitTagAny_length hsp
    simp only [List.length_cons] at this
    omega
  · exact le_rfl

lemma interOk_cons_tag_none {S : List Kind} {c : Char} {cs : List Char}
    (hc : c = '<') (hsp : splitTagAny (c :: cs) = none) :
    interOk S (c :: cs) = false := by
  show interOkF (cs.length + 1) S (c :: cs) = false
  simp only [interOkF, if_pos hc, hsp]

lemma kmem_iff {k : Kind} {S : List Kind} : kmem k S = true ↔ k ∈ S := by
  unfold kmem
  rw [List.any_eq_true]
  constructor
  · rintro ⟨j, hj, hjk⟩
    rw [decide_eq_true_eq] at hjk
    exact hjk ▸ hj
  · intro hk
    exact ⟨k, hk, by simp⟩

lemma kmem_filter {k j : Kind} {S : List Kind} (hk : kmem k S = true)
    (hne : k ≠ j) :
    kmem k (S.filter (fun i => decide (i ≠ j))) = true := by
  rw [kmem_iff] at hk ⊢
  rw [List.mem_filter]
  exact ⟨hk, by simpa using hne⟩

lemma interOk_tag_intro {k : Kind} {S : List Kind} {body rest : List Char}
    (hk : kmem k S = true) (hb : body ≠ [])
    (hok : ∀ c ∈ body, bodyOk k c = true) (hrest : interOk S rest = true) :
    interOk S (kindPre k ++ (body ++ (closer ++ rest))) = true := by
  have hts := @tagSplit_complete k body rest hb hok
  have hsp := splitTagAny_complete hts
  obtain ⟨t0, hpre, _⟩ := kindPre_cons k
  have htext : kindPre k ++ (body ++ (closer ++ rest)) =
      '<' :: (t0 ++ (body ++ (closer ++ rest))) := by rw [hpre]; rfl
  rw [htext] at hsp ⊢
  rw [interOk_cons_tag rfl hsp, hk, hrest]
  rfl

lemma interOk_no_lt :
    ∀ (f : ℕ) (cs : List Char), cs.length ≤ f → interOk [] cs = true →
      ∀ c ∈ cs, c ≠ '<' := by
  intro f
  induction f with
  | zero =>
      intro cs hf _
      have : cs = [] := List.length_eq_zero.mp (Nat.le_zero.mp hf)
      subst this
      simp
  | succ f ih =>
      intro cs hf h
      cases cs with
      | nil => simp
      | cons c cs' =>
          by_cases hc : c = '<'
          · subst hc
            cases hsp : splitTagAny ('<' :: cs') with
            | none =>
                rw [interOk_cons_tag_none rfl hsp] at h
                exact absurd h (by simp)
            | some pr =>
                obtain ⟨k, rest⟩ := pr
                rw [interOk_cons_tag rfl hsp] at h
                have hkf : kmem k ([] : List Kind) = false := rfl
                rw [hkf] at h
                simp at h
          · intro a ha
            rcases List.mem_cons.mp ha with rfl | ha
            · exact hc
            · rw [interOk_cons_ord hc] at h
              exact ih cs' (by simpa using hf) h a ha

/-- Key pass lemma: one `re.sub` pass deletes exactly the tags of its own kind
from a well-formed interleaving and leaves a well-formed interleaving over the
remaining kinds. -/
lemma subPat_pass (k : Kind) :
    ∀ (f : ℕ) (S : List Kind) (cs : List Char), cs.length ≤ f →
      interOk S cs = true →
      interOk (S.filter (fun j => decide (j ≠ k))) (subPat (kindPat k) cs) =
        true := by
  intro f
  induction f with
  | zero =>
      intro S cs hf _
      have : cs = [] := List.length_eq_zero.mp (Nat.le_zero.mp hf)
      subst this
      rfl
  | succ f ih =>
      intro S cs hf h
      cases cs with
      | nil => rfl
      | cons c cs' =>
          obtain ⟨t1, hpre1, _⟩ := kindPre_cons k
          have hpre1' : (kindPat k).pre = '<' :: t1 := by
            rw [kindPat_pre]; exact hpre1
          by_cases hc : c = '<'
          · subst hc
            cases hsp : splitTagAny ('<' :: cs') with
            | none =>
                rw [interOk_cons_tag_none rfl hsp] at h
                exact absurd h (by simp)
            | some pr =>
                obtain ⟨k', rest⟩ := pr
                rw [interOk_cons_tag rfl hsp] at h
                rw [Bool.and_eq_true] at h
                obtain ⟨hk', hrest⟩ := h
                obtain ⟨body, hb, hok, hcs⟩ := tagSplit_decomp (splitTagAny_some hsp)
                have hrlen : rest.length ≤ f := by
                  have := splitTagAny_length hsp
                  simp only [List.length_cons] at this hf
                  omega
                by_cases hkk : k' = k
                · subst hkk
                  obtain ⟨g, hm⟩ := matchAt_tag hb hok
                  have hmatch : matchAt (kindPat k') ('<' :: cs') =
                      some ((kindPre k').length + body.length + 3, g) := by
                    rw [hcs]; exact hm
                  have hdrop : ('<' :: cs').drop
                      ((kindPre k').length + body.length + 3) = rest := by
                    rw [hcs]; exact drop_pre_body_closer _ _ _
                  rw [subPat_cons_match hmatch, hdrop]
                  exact ih S rest hrlen hrest
                · obtain ⟨t0, hpre0, ht0⟩ := kindPre_cons k'
                  have hmn : matchAt (kindPat k) ('<' :: cs') = none := by
                    rw [hcs]
                    exact matchAt_other (fun he => hkk he.symm) _
                  have hcs'2 : cs' = t0 ++ (body ++ (closer ++ rest)) := by
                    rw [hpre0] at hcs
                    simpa using hcs
                  have hmid : cs' = (t0 ++ (body ++ closer)) ++ rest := by
                    rw [hcs'2]; simp [List.append_assoc]
                  have hcopy : subPat (kindPat k)
                      ((t0 ++ (body ++ closer)) ++ rest) =
                      (t0 ++ (body ++ closer)) ++ subPat (kindPat k) rest := by
                    apply subPat_copy hpre1'
                    intro a ha
                    rcases List.mem_append.mp ha with ha | ha
                    · exact ht0 a ha
                    rcases List.mem_append.mp ha with ha | ha
                    · exact bodyOk_no_lt (hok a ha)
                    · simp [closer] at ha
                      rcases ha with rfl | rfl <;> decide
                  rw [subPat_cons_none hmn, hmid, hcopy]
                  have hasm : '<' :: ((t0 ++ (body ++ closer)) ++
                      subPat (kindPat k) rest) =
                      kindPre k' ++ (body ++ (closer ++ subPat (kindPat k) rest)) := by
                    rw [hpre0]
                    simp [List.append_assoc]
                  rw [hasm]
                  exact interOk_tag_intro (kmem_filter hk' hkk) hb hok
                    (ih S rest hrlen hrest)
          · rw [interOk_cons_ord hc] at h
            rw [subPat_cons_none (matchAt_none_of_head hpre1' hc),
              interOk_cons_ord hc]
            exact ih S cs' (by simpa using hf) h

lemma dropWhile_mem {P : Char → Bool} {c : Char} :
    ∀ {l : List Char}, c ∈ l.dropWhile P → c ∈ l := by
  intro l
  induction l with
  | nil => simp
  | cons a l ih =>
      by_cases h : P a
      · intro hm
        simp only [List.dropWhile, h] at hm
        exact List.mem_cons_of_mem a (ih hm)
      · intro hm
        simpa only [List.dropWhile, h] using hm

lemma pyStrip_subset {c : Char} {l : List Char} (h : c ∈ pyStrip l) :
    c ∈ l := by
  unfold pyStrip at h
  rw [List.mem_reverse] at h
  have h1 := dropWhile_mem h
  rw [List.mem_reverse] at h1
  exact dropWhile_mem h1

/-- After the six passes there is no `<` left in a well-formed interleaving. -/
lemma stripTags_no_lt {cs : List Char} (h : interOk allKinds cs = true) :
    ∀ c ∈ stripTags cs, c ≠ '<' := by
  have h1 := subPat_pass .typing cs.length allKinds cs le_rfl h
  have h2 := subPat_pass .pause _ _ _ le_rfl h1
  have h3 := subPat_pass .state _ _ _ le_rfl h2
  have h4 := subPat_pass .presence _ _ _ le_rfl h3
  have h5 := subPat_pass .read _ _ _ le_rfl h4
  have h6 := subPat_pass .pace _ _ _ le_rfl h5
  have hS : (((((allKinds.filter
      (fun j => decide (j ≠ Kind.typing))).filter
      (fun j => decide (j ≠ Kind.pause))).filter
      (fun j => decide (j ≠ Kind.state))).filter
      (fun j => decide (j ≠ Kind.presence))).filter
      (fun j => decide (j ≠ Kind.read))).filter
      (fun j => decide (j ≠ Kind.pace)) = [] := by decide
  rw [hS] at h6
  exact interOk_no_lt _ _ le_rfl h6

/-! ## Helper lemmas about the two apply-event variants -/

lemma inRangeG_gameClamp (s : GameState) : inRangeG (gameClamp s) := by
  have h1 := clampZ_mem (-5) 5 s.warmth (by norm_num)
  have h2 := clampZ_mem 0 10 s.tension (by norm_num)
  have h3 := clampZ_mem 0 10 s.trust (by norm_num)
  have h4 := clampZ_mem 0 10 s.disappointment (by norm_num)
  have h5 := clampZ_mem 0 10 s.need (by norm_num)
  have h6 := clampZ_mem 0 10 s.rhythm (by norm_num)
  exact ⟨h1.1, h1.2, h2.1, h2.2, h3.1, h3.2, h4.1, h4.2, h5.1, h5.2,
    h6.1, h6.2⟩

lemma gameApply_unknown {s : GameState} {e : String} {c : List Char}
    {now : String} (hl : gameLookup e = none) :
    gameApplyEvent s e c now = (s, .unknownEvent ("Unknown event: " ++ e)) := by
  unfold gameApplyEvent
  rw [hl]

lemma gameApply_clamped {s : GameState} {e : String} {c : List Char}
    {now : String} {tbl : List (String × ℚ)} (hl : gameLookup e = some tbl) :
    ∃ s', (gameApplyEvent s e c now).1 = gameClamp s' := by
  unfold gameApplyEvent
  rw [hl]
  exact ⟨_, rfl⟩

lemma engineApply_some {s : EngineState} {e : String}
    {c : Option (List Char)} {now : String} {tbl : List (String × ℚ)}
    (hl : engineLookup e = some tbl) :
    ∃ s4 changes, engineApplyEvent s e c now =
      (s4, .ok s s4 changes (specialOf s4)) := by
  unfold engineApplyEvent
  rw [hl]
  exact ⟨_, _, rfl⟩

lemma gameApplyDelta_mem (s : GameState) (p : String × ℚ) :
    (gameApplyDelta s p).retraction_memory = s.retraction_memory := by
  unfold gameApplyDelta
  split_ifs <;> rfl

lemma gameApplyDeltas_mem (changes : List (String × ℚ)) :
    ∀ s : GameState,
      (gameApplyDeltas s changes).retraction_memory = s.retraction_memory := by
  induction changes with
  | nil => intro s; rfl
  | cons p t ih =>
      intro s
      show (gameApplyDeltas (gameApplyDelta s p) t).retraction_memory = _
      rw [ih, gameApplyDelta_mem]

lemma engineApplyDelta_mem (s : EngineState) (p : String × ℚ) :
    (engineApplyDelta s p).retraction_memory = s.retraction_memory := by
  unfold engineApplyDelta
  split_ifs <;> rfl

lemma engineApplyDeltas_mem (changes : List (String × ℚ)) :
    ∀ s : EngineState,
      (engineApplyDeltas s changes).retraction_memory =
        s.retraction_memory := by
  induction changes with
  | nil => intro s; rfl
  | cons p t ih =>
      intro s
      show (engineApplyDeltas (engineApplyDelta s p) t).retraction_memory = _
      rw [ih, engineApplyDelta_mem]

lemma pyInt_add_ofInt (a b : ℤ) : pyInt ((a : ℚ) + (b : ℚ)) = a + b := by
  have h : ((a : ℚ) + (b : ℚ)) = ((a + b : ℤ) : ℚ) := by
    push_cast
    ring
  rw [h, pyInt_intCast]

lemma gameApplyDelta_warmth (s : GameState) (q : ℚ) :
    gameApplyDelta s ("warmth", q) =
      { s with warmth := pyInt ((s.warmth : ℚ) + q) } := by
  unfold gameApplyDelta
  rw [if_pos rfl]

lemma gameApplyDelta_tension (s : GameState) (q : ℚ) :
    gameApplyDelta s ("tension", q) =
      { s with tension := pyInt ((s.tension : ℚ) + q) } := by
  unfold gameApplyDelta
  rw [if_neg (show ¬("tension" = "warmth") from by decide), if_pos rfl]

lemma gameApplyDelta_rhythm (s : GameState) (q : ℚ) :
    gameApplyDelta s ("rhythm", q) =
      { s with rhythm := pyInt ((s.rhythm : ℚ) + q) } := by
  unfold gameApplyDelta
  rw [if_neg (show ¬("rhythm" = "warmth") from by decide),
    if_neg (show ¬("rhythm" = "tension") from by decide),
    if_neg (show ¬("rhythm" = "trust") from by decide),
    if_neg (show ¬("rhythm" = "disappointment") from by decide),
    if_neg (show ¬("rhythm" = "need") from by decide), if_pos rfl]

lemma engineApplyDelta_tension (s : EngineState) (q : ℚ) :
    engineApplyDelta s ("tension", q) =
      { s with tension := s.tension + q } := by
  unfold engineApplyDelta
  rw [if_neg (show ¬("tension" = "warmth") from by decide), if_pos rfl]

lemma gameApply_retr_mem (s : GameState) (c : List Char) (now : String)
    (hc : c ≠ []) :
    (gameApplyEvent s "retraction_seen" c now).1.retraction_memory =
      lastN 5 (s.retraction_memory ++ [⟨c.take 50, now⟩]) := by
  have hl : gameLookup "retraction_seen" = some [("tension", 2)] := by decide
  have hcc : c.isEmpty = false := by
    cases c with
    | nil => exact absurd rfl hc
    | cons a t => rfl
  simp only [gameApplyEvent, hl, hcc, gameClamp, decide_True, Bool.not_false,
    Bool.and_self, Bool.true_and, Bool.and_true, if_true]
  rw [gameApplyDeltas_mem]

lemma gameApply_retr_tension (s : GameState) (now : String) :
    (gameApplyEvent s "retraction_seen" ("对不起".toList) now).1.tension =
      clampZ 0 10 (s.tension + 4) := by
  have hl : gameLookup "retraction_seen" = some [("tension", 2)] := by decide
  have hkw : (emotionalKeywords.any fun kw => occursIn kw ("对不起".toList))
      = true := by decide
  have hcc : ("对不起".toList).isEmpty = false := by decide
  simp only [gameApplyEvent, hl, hkw, hcc, gameClamp, decide_True,
    Bool.not_false, Bool.and_self, Bool.true_and, Bool.and_true, if_true,
    setAssoc, getAssoc, gameApplyDeltas, gameApplyDelta, List.foldl]
  norm_num
  have hcast : ((s.tension : ℚ) + 4) = ((s.tension + 4 : ℤ) : ℚ) := by
    push_cast
    ring
  rw [hcast, pyInt_intCast, if_neg (by decide)]

lemma gameApply_retr_tension_base (s : GameState) (now : String) :
    (gameApplyEvent s "retraction_seen" [] now).1.tension =
      clampZ 0 10 (s.tension + 2) := by
  have hl : gameLookup "retraction_seen" = some [("tension", 2)] := by decide
  simp only [gameApplyEvent, hl, gameClamp, decide_True, Bool.not_false,
    Bool.and_self, Bool.true_and, Bool.and_true, if_true, List.isEmpty_nil,
    Bool.not_true, Bool.and_false, Bool.false_and, if_false,
    gameApplyDeltas, gameApplyDelta, List.foldl]
  norm_num
  have hcast : ((s.tension : ℚ) + 2) = ((s.tension + 2 : ℤ) : ℚ) := by
    push_cast
    ring
  rw [hcast, pyInt_intCast, if_neg (by decide)]

lemma gameApply_retr_mem_empty (s : GameState) (now : String) :
    (gameApplyEvent s "retraction_seen" [] now).1.retraction_memory =
      s.retraction_memory := by
  have hl : gameLookup "retraction_seen" = some [("tension", 2)] := by decide
  simp only [gameApplyEvent, hl, gameClamp, List.isEmpty_nil, Bool.not_true,
    Bool.and_false, Bool.false_and, if_false]
  rw [gameApplyDeltas_mem, if_neg (by decide)]

lemma gameApply_retr_empty_output (s : GameState) (now : String) :
    (gameApplyEvent s "retraction_seen" [] now).2 =
      .applied [("tension", 2)] := by
  have hl : gameLookup "retraction_seen" = some [("tension", 2)] := by decide
  simp only [gameApplyEvent, hl, List.isEmpty_nil, Bool.not_true,
    Bool.and_false, Bool.false_and, Bool.false_eq_true, if_false]

lemma confession_fields (now : String) :
    (gameApplyEvent defaultG "confession" [] now).1.tension = 5 ∧
    (gameApplyEvent defaultG "confession" [] now).1.warmth = 0 := by
  have hl : gameLookup "confession" = some [("tension", 5)] := by decide
  simp only [gameApplyEvent, hl, gameClamp, List.isEmpty_nil, Bool.not_true,
    Bool.and_false, Bool.false_and, Bool.false_eq_true, if_false,
    gameApplyDeltas, List.foldl_cons, List.foldl_nil, gameApplyDelta_tension]
  constructor
  · rw [show (5 : ℚ) = ((5 : ℤ) : ℚ) from by norm_num, pyInt_add_ofInt]
    decide
  · decide

lemma confession_apply_full (now : String) :
    (gameApplyEvent defaultG "confession" [] now).1 =
      (⟨0, 5, 5, 0, 3, 5, [], some now⟩ : GameState) := by
  with_unfolding_all rfl

lemma gameApply_eager_warmth (s : GameState) (now : String) :
    (gameApplyEvent s "eager_push" [] now).1.warmth =
      clampZ (-5) 5 (pyInt ((s.warmth : ℚ) + (-1))) := by
  have hl : gameLookup "eager_push" =
      some [("warmth", -1), ("tension", 2), ("rhythm", -1)] := by decide
  simp only [gameApplyEvent, hl, gameClamp, List.isEmpty_nil, Bool.not_true,
    Bool.and_false, Bool.false_and, Bool.false_eq_true, if_false,
    gameApplyDeltas, List.foldl_cons, List.foldl_nil, gameApplyDelta_warmth,
    gameApplyDelta_tension, gameApplyDelta_rhythm]

lemma engineApply_retr_none_mem (s : EngineState) (now : String) :
    (engineApplyEvent s "retraction_seen" none now).1.retraction_memory =
      s.retraction_memory := by
  have hl : engineLookup "retraction_seen" = some [("tension", 2)] := by decide
  simp only [engineApplyEvent, hl, engineClamp, Bool.and_false, if_false,
    Bool.false_and, Bool.false_eq_true]
  rw [engineApplyDeltas_mem]

lemma engineApply_retr_none_tension (s : EngineState) (now : String) :
    (engineApplyEvent s "retraction_seen" none now).1.tension =
      clampQ 0 10 (s.tension + 2) := by
  have hl : engineLookup "retraction_seen" = some [("tension", 2)] := by decide
  simp only [engineApplyEvent, hl, engineClamp, Bool.and_false, if_false,
    Bool.false_and, Bool.false_eq_true, engineApplyDeltas, List.foldl_cons,
    List.foldl_nil, engineApplyDelta_tension]

lemma engineApply_retr_someEmpty_mem (s : EngineState) (now : String) :
    (engineApplyEvent s "retraction_seen" (some []) now).1.retraction_memory =
      s.retraction_memory := by
  have hl : engineLookup "retraction_seen" = some [("tension", 2)] := by decide
  simp only [engineApplyEvent, hl, engineClamp, List.isEmpty_nil,
    Bool.not_true, Bool.and_false, Bool.false_and, Bool.false_eq_true,
    if_false]
  rw [engineApplyDeltas_mem]

/-! ## Operation sequences on the game-client state

The two mutation paths of the client: `apply_event` (transition table) and
the control-tag state-update loop. -/

inductive GameOp where
  | ev (name : String) (content : List Char) (now : String)
  | upd (updates : List (List Char × ℤ))

def runOp (s : GameState) : GameOp → GameState
  | .ev n c now => (gameApplyEvent s n c now).1
  | .upd u => applyStateUpdates s u

/-- `ev` ops must carry a registered event name; update ops are always
admissible. -/
def opRegistered : GameOp → Bool
  | .ev n _ _ => (gameLookup n).isSome
  | .upd _ => true

lemma runOp_inRange {s : GameState} (hs : inRangeG s) (op : GameOp) :
    inRangeG (runOp s op) := by
  cases op with
  | ev n c now =>
      show inRangeG (gameApplyEvent s n c now).1
      cases hl : gameLookup n with
      | none => rw [gameApply_unknown hl]; exact hs
      | some tbl =>
          obtain ⟨s', hs'⟩ := gameApply_clamped hl
          rw [hs']
          exact inRangeG_gameClamp s'
  | upd u =>
      show inRangeG (applyStateUpdates s u)
      exact inRangeG_gameClamp _

lemma foldl_runOp_inRange :
    ∀ (ops : List GameOp) (s : GameState), inRangeG s →
      inRangeG (List.foldl runOp s ops) := by
  intro ops
  induction ops with
  | nil => intro s hs; exact hs
  | cons op ops ih =>
      intro s hs
      exact ih (runOp s op) (runOp_inRange hs op)

/-! ## Retraction memory under repeated events -/

lemma retr_fold_mem :
    ∀ (ps : List (List Char × String)) (s : GameState),
      (∀ p ∈ ps, p.1 ≠ []) → s.retraction_memory.length ≤ 5 →
      (List.foldl (fun st p =>
          (gameApplyEvent st "retraction_seen" p.1 p.2).1) s ps).retraction_memory
        = lastN 5 (s.retraction_memory ++
            ps.map (fun p => (⟨p.1.take 50, p.2⟩ : MemEntry))) := by
  intro ps
  induction ps with
  | nil =>
      intro s _ hlen
      simp only [List.foldl_nil, List.map_nil, List.append_nil]
      exact (lastN_of_length_le hlen).symm
  | cons p ps ih =>
      intro s hne hlen
      have hp1 : p.1 ≠ [] := hne p (List.mem_cons_self p ps)
      have hstep := gameApply_retr_mem s p.1 p.2 hp1
      simp only [List.foldl_cons, List.map_cons]
      rw [ih _ (fun q hq => hne q (List.mem_cons_of_mem p hq))
        (by rw [hstep]; exact lastN_length_le 5 _), hstep,
        lastN_append_lastN]
      congr 1
      simp [List.append_assoc]

lemma lastN5_of_len7 {α : Type} (l : List α) (h : l.length = 7) :
    lastN 5 l = l.drop 2 := by
  rcases l with _ | ⟨a1, l⟩
  · simp at h
  rcases l with _ | ⟨a2, l⟩
  · simp at h
  rcases l with _ | ⟨a3, l⟩
  · simp at h
  rcases l with _ | ⟨a4, l⟩
  · simp at h
  rcases l with _ | ⟨a5, l⟩
  · simp at h
  rcases l with _ | ⟨a6, l⟩
  · simp at h
  rcases l with _ | ⟨a7, l⟩
  · simp at h
  rcases l with _ | ⟨a8, l⟩
  · rfl
  · simp only [List.length_cons] at h
    omega

/-! ## Special states -/

lemma specialOf_mem (s : EngineState) :
    ("distancing_mode" ∈ specialOf s ↔ 7 ≤ s.disappointment) ∧
    ("high_alert" ∈ specialOf s ↔ 8 ≤ s.tension) ∧
    ("cold_mode" ∈ specialOf s ↔ s.warmth ≤ -3) := by
  unfold specialOf
  refine ⟨?_, ?_, ?_⟩ <;> split_ifs <;>
    simp_all [List.mem_append, String.ext_iff]

set_option linter.unnecessarySeqFocus false in
lemma calcTiming_conf_bound (mem : List MemEntry) (li : Option String)
    (r : Draws)
    (hok : (calcTiming ⟨0, 5, 5, 0, 3, 5, mem, li⟩ "confession" r).2.ok
      = true) :
    15000 ≤
      (calcTiming ⟨0, 5, 5, 0, 3, 5, mem, li⟩ "confession" r).1.typing_delay_ms := by
  obtain ⟨ints, floats, ok0⟩ := r
  rcases ints with _ | ⟨i1, _ | ⟨i2, _ | ⟨i3, _ | ⟨i4, _ | ⟨i5, ints⟩⟩⟩⟩⟩ <;>
    rcases floats with _ | ⟨f1, _ | ⟨f2, floats⟩⟩ <;>
    simp [calcTiming, rInt, rFloat] at hok ⊢ <;>
    omega

/-! ## The claims -/

/-- C1 (invariants): starting from any state within the documented ranges,
after every prefix of any sequence of operations — `apply_event` calls with
registered event names and control-tag state-update applications — warmth
stays in [-5, 5] and tension, trust, disappointment, need and rhythm stay in
[0, 10] (both mutation paths clamp before returning). -/
theorem clamp_invariant (s : GameState) (ops : List GameOp) (n : ℕ)
    (hs : inRangeG s) (hreg : ∀ op ∈ ops, opRegistered op = true) :
    inRangeG (List.foldl runOp s (ops.take n)) :=
  foldl_runOp_inRange (ops.take n) s hs

/-- Witness for C1 at a concrete state and operation sequence. -/
theorem clamp_invariant_witness :
    inRangeG (List.foldl runOp defaultG
      ([GameOp.ev "confession" [] "t1",
        GameOp.upd [("warmth".toList, 99)],
        GameOp.ev "eager_push" [] "t2"].take 3)) :=
  clamp_invariant defaultG
    [GameOp.ev "confession" [] "t1",
     GameOp.upd [("warmth".toList, 99)],
     GameOp.ev "eager_push" [] "t2"] 3 (by decide) (by decide)

/-- C3 (error_handling): `apply_event` on an event name outside the
transition table returns the error dict, leaves the state unchanged
field-by-field (memory lists included), and the CLI `apply` subcommand does
not write the state file on such a rejection. -/
theorem unknown_event_rejection (s : EngineState) (e : String)
    (c : Option (List Char)) (now : String) (file : Option EngineState)
    (h : engineLookup e = none) :
    (engineApplyEvent s e c now).1.warmth = s.warmth ∧
    (engineApplyEvent s e c now).1.tension = s.tension ∧
    (engineApplyEvent s e c now).1.trust = s.trust ∧
    (engineApplyEvent s e c now).1.disappointment = s.disappointment ∧
    (engineApplyEvent s e c now).1.need = s.need ∧
    (engineApplyEvent s e c now).1.rhythm = s.rhythm ∧
    (engineApplyEvent s e c now).1.consecutive_days = s.consecutive_days ∧
    (engineApplyEvent s e c now).1.last_interaction = s.last_interaction ∧
    (engineApplyEvent s e c now).1.retraction_memory = s.retraction_memory ∧
    (engineApplyEvent s e c now).1.disappointment_events =
      s.disappointment_events ∧
    (engineApplyEvent s e c now).2 = .error ("Unknown event: " ++ e) ∧
    (cliApply file e c now).1 = file ∧
    isErr (cliApply file e c now).2 = true := by
  have happ : ∀ s' : EngineState,
      engineApplyEvent s' e c now =
        (s', .error ("Unknown event: " ++ e)) := by
    intro s'
    unfold engineApplyEvent
    rw [h]
  have hcli : cliApply file e c now =
      (file, .error ("Unknown event: " ++ e)) := by
    simp only [cliApply, happ]
  rw [happ s, hcli]
  exact ⟨rfl, rfl, rfl, rfl, rfl, rfl, rfl, rfl, rfl, rfl, rfl, rfl, rfl⟩

/-- Witness for C3 at the concrete rejected event name of the spec. -/
theorem unknown_event_rejection_witness :
    (engineApplyEvent defaultE "not_a_real_event" none "t").1.warmth =
      defaultE.warmth ∧
    (cliApply none "not_a_real_event" none "t").1 = none := by
  have h := unknown_event_rejection defaultE "not_a_real_event" none "t" none
    (by decide)
  refine ⟨h.1, ?_⟩
  tauto


/-- C4 counterexample (claim corrected): in the state_engine.py variant the
delta loop stores `current + delta` with no `int()` truncation, so applying
`normal_chat` to the default state leaves `rhythm = 5.5` — a non-integer
value, not an integer as the claim asserts. -/
theorem truncation_cex :
    (engineApplyEvent defaultE "normal_chat" none "t").1.rhythm = 11 / 2 ∧
    (engineApplyEvent defaultE "normal_chat" none "t").1.rhythm ≠ (5 : ℚ) ∧
    ((engineApplyEvent defaultE "normal_chat" none "t").1.rhythm).den = 2 := by
  have h : (engineApplyEvent defaultE "normal_chat" none "t").1.rhythm =
      11 / 2 := by
    with_unfolding_all rfl
  refine ⟨h, ?_, ?_⟩
  · rw [h]
    norm_num
  · rw [h]
    with_unfolding_all rfl

/-- C4 (numerical, amended): the state.py variant truncates fractional deltas
toward the integer after addition (`int(current + delta)`), so `normal_chat`
on the default state leaves `tension = 0` and `rhythm = 5` there; the
state_engine.py variant applies no truncation, and the same call leaves
`tension = 0` (only because of clamping) but `rhythm = 5.5`. -/
theorem truncation_amended :
    (gameApplyEvent defaultG "normal_chat" [] "t").1.tension = 0 ∧
    (gameApplyEvent defaultG "normal_chat" [] "t").1.rhythm = 5 ∧
    (engineApplyEvent defaultE "normal_chat" none "t").1.tension = 0 ∧
    (engineApplyEvent defaultE "normal_chat" none "t").1.rhythm = 11 / 2 := by
  refine ⟨?_, ?_, ?_, ?_⟩ <;> with_unfolding_all rfl

/-- C5 (functional_correctness): a control-tag state-update directive
`warmth=-5` parses to the entry `("warmth", -5)` and applying it overwrites
the stored value (then clamps), so warmth is exactly -5 afterwards for every
starting state; applying the `eager_push` event from warmth = 0 adds the
table delta -1, yielding warmth = -1: the two mutation paths are overwrite
and additive respectively. -/
theorem overwrite_vs_delta :
    (parseControlTags ("<!--state:warmth=-5-->".toList)).2.state_updates =
      [("warmth".toList, -5)] ∧
    (∀ s : GameState,
      (applyStateUpdates s [("warmth".toList, -5)]).warmth = -5) ∧
    (∀ (s : GameState) (now : String), s.warmth = 0 →
      (gameApplyEvent s "eager_push" [] now).1.warmth = -1) := by
  refine ⟨by decide, ?_, ?_⟩
  · intro s
    show (gameClamp (setDim s ("warmth".toList, -5))).warmth = -5
    unfold setDim
    rw [if_pos rfl]
    show clampZ (-5) 5 (-5) = -5
    decide
  · intro s now h
    rw [gameApply_eager_warmth, h]
    with_unfolding_all rfl

/-- Witness for C5 at the default state. -/
theorem overwrite_vs_delta_witness :
    (applyStateUpdates defaultG [("warmth".toList, -5)]).warmth = -5 ∧
    (gameApplyEvent defaultG "eager_push" [] "t").1.warmth = -1 := by
  have h := overwrite_vs_delta
  exact ⟨h.2.1 defaultG, h.2.2 defaultG "t" (by decide)⟩

/-- C6 (functional_correctness): for every state and registered event,
state_engine.py `apply_event` returns, alongside the changes, a
`special_states` list computed from the post-clamp state, containing
`distancing_mode` iff disappointment ≥ 7, `high_alert` iff tension ≥ 8 and
`cold_mode` iff warmth ≤ -3. -/
theorem special_states (s : EngineState) (e : String) (c : Option (List Char))
    (now : String) (h : engineLookup e ≠ none) :
    ("distancing_mode" ∈ outSpecial (engineApplyEvent s e c now).2 ↔
      7 ≤ (engineApplyEvent s e c now).1.disappointment) ∧
    ("high_alert" ∈ outSpecial (engineApplyEvent s e c now).2 ↔
      8 ≤ (engineApplyEvent s e c now).1.tension) ∧
    ("cold_mode" ∈ outSpecial (engineApplyEvent s e c now).2 ↔
      (engineApplyEvent s e c now).1.warmth ≤ -3) := by
  obtain ⟨tbl, htbl⟩ : ∃ tbl, engineLookup e = some tbl := by
    cases hx : engineLookup e with
    | none => exact absurd hx h
    | some tbl => exact ⟨tbl, rfl⟩
  obtain ⟨s4, ch, hr⟩ := engineApply_some htbl
  rw [hr]
  simpa only [outSpecial] using specialOf_mem s4

/-- Witness for C6 at a concrete registered event. -/
theorem special_states_witness :
    ("distancing_mode" ∈
        outSpecial (engineApplyEvent defaultE "confession" none "t").2 ↔
      7 ≤ (engineApplyEvent defaultE "confession" none "t").1.disappointment) ∧
    ("high_alert" ∈
        outSpecial (engineApplyEvent defaultE "confession" none "t").2 ↔
      8 ≤ (engineApplyEvent defaultE "confession" none "t").1.tension) ∧
    ("cold_mode" ∈
        outSpecial (engineApplyEvent defaultE "confession" none "t").2 ↔
      (engineApplyEvent defaultE "confession" none "t").1.warmth ≤ -3) :=
  special_states defaultE "confession" none "t" (by decide)

/-- C7 (functional_correctness): for a state with empty retraction memory and
tension in [0, 6], `apply_event("retraction_seen", content="对不起")` raises
tension by exactly 4 (base 2 plus emotional-keyword bonus 2) and leaves the
memory with exactly one entry; and folding 7 retraction events with nonempty
contents over an empty memory leaves exactly the 5 most recent entries, the
two oldest dropped. -/
theorem retraction_memory_thm :
    (∀ (s : GameState) (now : String), s.retraction_memory = [] →
      0 ≤ s.tension → s.tension ≤ 6 →
      (gameApplyEvent s "retraction_seen" ("对不起".toList) now).1.tension =
        s.tension + 4 ∧
      (gameApplyEvent s "retraction_seen" ("对不起".toList)
        now).1.retraction_memory.length = 1) ∧
    (∀ (s : GameState) (ps : List (List Char × String)),
      s.retraction_memory = [] → ps.length = 7 → (∀ p ∈ ps, p.1 ≠ []) →
      (List.foldl (fun st p =>
          (gameApplyEvent st "retraction_seen" p.1 p.2).1) s ps).retraction_memory
        = (ps.drop 2).map (fun p => (⟨p.1.take 50, p.2⟩ : MemEntry))) := by
  constructor
  · intro s now hmem h0 h6
    constructor
    · rw [gameApply_retr_tension, clampZ_of_mem 0 10 _ (by omega) (by omega)]
    · rw [gameApply_retr_mem s _ now (by decide), hmem]
      simp [lastN]
  · intro s ps hmem hlen hne
    rw [retr_fold_mem ps s hne (by rw [hmem]; simp), hmem]
    simp only [List.nil_append]
    rw [lastN5_of_len7 _ (by simp [hlen])]
    exact (List.map_drop _ _ _).symm

/-- Witness for C7 at the default state and 7 concrete retractions. -/
theorem retraction_memory_witness :
    (gameApplyEvent defaultG "retraction_seen" ("对不起".toList)
      "t").1.tension = defaultG.tension + 4 ∧
    (gameApplyEvent defaultG "retraction_seen" ("对不起".toList)
      "t").1.retraction_memory.length = 1 ∧
    (List.foldl (fun st p =>
        (gameApplyEvent st "retraction_seen" p.1 p.2).1) defaultG
        [("r1".toList, "t1"), ("r2".toList, "t2"), ("r3".toList, "t3"),
         ("r4".toList, "t4"), ("r5".toList, "t5"), ("r6".toList, "t6"),
         ("r7".toList, "t7")]).retraction_memory =
      ([("r1".toList, "t1"), ("r2".toList, "t2"), ("r3".toList, "t3"),
        ("r4".toList, "t4"), ("r5".toList, "t5"), ("r6".toList, "t6"),
        ("r7".toList, "t7")].drop 2).map
        (fun p => (⟨p.1.take 50, p.2⟩ : MemEntry)) := by
  have h1 := retraction_memory_thm.1 defaultG "t" rfl (by decide) (by decide)
  have h2 := retraction_memory_thm.2 defaultG
    [("r1".toList, "t1"), ("r2".toList, "t2"), ("r3".toList, "t3"),
     ("r4".toList, "t4"), ("r5".toList, "t5"), ("r6".toList, "t6"),
     ("r7".toList, "t7")] rfl (by decide) (by decide)
  exact ⟨h1.1, h1.2, h2⟩

/-- C8 (functional_correctness): classifying "我喜欢你" yields the confession
category; applying the confession event to the default state yields
tension = clamp(0+5) = 5; and on the resulting state, for every admissible
sequence of random draws, `calculate_timing` with the confession event
reports a typing delay of at least 15000 ms. -/
theorem confession_scenario :
    detectEventType ("我喜欢你".toList) = "confession" ∧
    (∀ now : String,
      (gameApplyEvent defaultG "confession" [] now).1.tension = 5) ∧
    (∀ (now : String) (r : Draws),
      (calcTiming (gameApplyEvent defaultG "confession" [] now).1
        "confession" r).2.ok = true →
      15000 ≤ (calcTiming (gameApplyEvent defaultG "confession" [] now).1
        "confession" r).1.typing_delay_ms) := by
  refine ⟨by decide, fun now => (confession_fields now).1, ?_⟩
  intro now r hok
  rw [confession_apply_full now] at hok ⊢
  exact calcTiming_conf_bound [] (some now) r hok

/-- Witness for C8 at a concrete sequence of draws. -/
theorem confession_scenario_witness :
    detectEventType ("我喜欢你".toList) = "confession" ∧
    (gameApplyEvent defaultG "confession" [] "t").1.tension = 5 ∧
    15000 ≤ (calcTiming (gameApplyEvent defaultG "confession" [] "t").1
      "confession"
      ⟨[5000, 80, 20000, 160, 200000], [1 / 2, 1 / 2], true⟩).1.typing_delay_ms := by
  have h := confession_scenario
  exact ⟨h.1, h.2.1 "t", h.2.2 "t" _ (by with_unfolding_all rfl)⟩

/-- C9 counterexample (claim corrected): `_parse_control_tags` never fills
the inline-pause mapping: on a text with a well-formed `<!--pause:500-->` tag
the tag is stripped from the clean text but the returned `pauses` dict is
empty, not non-empty as the claim asserts. -/
theorem pauses_cex :
    (parseControlTags ("<!--pause:500-->好".toList)).2.pauses = [] ∧
    (parseControlTags ("<!--pause:500-->好".toList)).1 = "好".toList := by
  exact ⟨rfl, by decide⟩

/-- C9 (functional_correctness, amended): the control-tag parse always
returns an empty inline-pause mapping — pause tags are deleted from the text
but never recorded (the source initialises `controls["pauses"] = {}` and
defers inline-pause handling with a comment, never filling it). -/
theorem pauses_always_empty (cs : List Char) :
    (parseControlTags cs).2.pauses = [] := rfl

/-- C10 (frame_effect): `apply_event` with event `retraction_seen` and empty
(or absent) content appends nothing to the retraction memory and applies only
the base tension+2 delta with no emotional-keyword bonus, in both variants
(game client with content "", standalone engine with content None or ""). -/
theorem retraction_empty_content (s : GameState) (s2 : EngineState)
    (now : String) :
    (gameApplyEvent s "retraction_seen" [] now).1.retraction_memory =
      s.retraction_memory ∧
    (gameApplyEvent s "retraction_seen" [] now).1.tension =
      clampZ 0 10 (s.tension + 2) ∧
    (gameApplyEvent s "retraction_seen" [] now).2 =
      .applied [("tension", 2)] ∧
    (engineApplyEvent s2 "retraction_seen" none now).1.retraction_memory =
      s2.retraction_memory ∧
    (engineApplyEvent s2 "retraction_seen" none now).1.tension =
      clampQ 0 10 (s2.tension + 2) ∧
    (engineApplyEvent s2 "retraction_seen"
        (some []) now).1.retraction_memory = s2.retraction_memory :=
  ⟨gameApply_retr_mem_empty s now, gameApply_retr_tension_base s now,
   gameApply_retr_empty_output s now, engineApply_retr_none_mem s2 now,
   engineApply_retr_none_tension s2 now, engineApply_retr_someEmpty_mem s2 now⟩

/-- C2 counterexample (claim corrected): a malformed pause tag (non-numeric
parameter) matches none of the six patterns and survives `.sub` untouched, so
the clean text still contains the `<!--pause:` marker verbatim. -/
theorem tag_strip_cex :
    occursIn ("<!--pause:".toList)
      (parseControlTags ("<!--pause:abc-->".toList)).1 = true := by decide

lemma occursIn_marker_false {m clean : List Char} (hm : '<' ∈ m)
    (hno : ∀ c ∈ clean, c ≠ '<') : occursIn m clean = false := by
  cases hocc : occursIn m clean with
  | false => rfl
  | true => exact absurd rfl (hno '<' (occursIn_sub_mem hocc '<' hm))

/-- C2 (functional_correctness, amended): for every text that interleaves
ordinary text containing no `<` with well-formed instances of the six tag
kinds whose parameter bodies contain no `<`, the clean text returned by the
control-tag parse contains none of the six tag marker substrings (indeed no
`<` at all).  The original claim also covered malformed instances; those can
survive verbatim, see the counterexample. -/
theorem tag_strip_amended (cs : List Char)
    (h : interOk allKinds cs = true) :
    occursIn ("<!--typing:".toList) (parseControlTags cs).1 = false ∧
    occursIn ("<!--pause:".toList) (parseControlTags cs).1 = false ∧
    occursIn ("<!--state:".toList) (parseControlTags cs).1 = false ∧
    occursIn ("<!--presence:".toList) (parseControlTags cs).1 = false ∧
    occursIn ("<!--read:".toList) (parseControlTags cs).1 = false ∧
    occursIn ("<!--pace:".toList) (parseControlTags cs).1 = false := by
  have hno : ∀ c ∈ (parseControlTags cs).1, c ≠ '<' := by
    intro c hc
    exact stripTags_no_lt h c (pyStrip_subset hc)
  exact ⟨occursIn_marker_false (by decide) hno,
    occursIn_marker_false (by decide) hno,
    occursIn_marker_false (by decide) hno,
    occursIn_marker_false (by decide) hno,
    occursIn_marker_false (by decide) hno,
    occursIn_marker_false (by decide) hno⟩

/-- A concrete text interleaving ordinary text with all six tag kinds. -/
def c2WitnessText : List Char :=
  ("hi <!--typing:duration=500--> a <!--pause:300--> b <!--state:warmth=2--> c <!--presence:away--> d <!--read:1--> e <!--pace:slow--> bye").toList

set_option maxRecDepth 40000 in
/-- Witness for C2 on a concrete interleaving of all six tag kinds. -/
theorem tag_strip_amended_witness :
    occursIn ("<!--typing:".toList) (parseControlTags c2WitnessText).1 = false ∧
    occursIn ("<!--pause:".toList) (parseControlTags c2WitnessText).1 = false ∧
    occursIn ("<!--state:".toList) (parseControlTags c2WitnessText).1 = false ∧
    occursIn ("<!--presence:".toList) (parseControlTags c2WitnessText).1 = false ∧
    occursIn ("<!--read:".toList) (parseControlTags c2WitnessText).1 = false ∧
    occursIn ("<!--pace:".toList) (parseControlTags c2WitnessText).1 = false :=
  tag_strip_amended c2WitnessText (by decide)
